import Mathlib

/-!
Verification development for the Calendar_Sync repository.

The development shallowly embeds the reconciliation core of
`calendar_sync.py` (normalization, event indexing, cancellation
resolution, the diff engine and the orchestrator counters) together
with the helper functions it uses from `src/utils.py` and
`src/google_calendar.py`, and proves or refutes the specified
properties of the synchronization algorithm.

Conventions:
* Python `datetime` objects are modelled by the `DT` structure
  (naive civil timestamp with microsecond field); timezone-aware
  values are modelled by `PyAware` (wall time plus optional UTC
  offset in minutes, `none` meaning naive).
* Python functions that can raise are modelled with `Option`/`Except`.
* The configured local zone `America/Sao_Paulo` is a fixed offset of
  -180 minutes (the zone has not observed DST since 2019; all concrete
  inputs in this file are post-2019 dates).
-/

namespace CalendarSync

/-- Naive civil timestamp, mirroring a Python `datetime` with `tzinfo=None`. -/
structure DT where
  year : Nat
  month : Nat
  day : Nat
  hour : Nat
  minute : Nat
  second : Nat
  microsecond : Nat
deriving DecidableEq, Repr

/-- Days from civil date (proleptic Gregorian), Howard Hinnant's algorithm,
    as used by Python's `datetime.toordinal` arithmetic. -/
def daysFromCivil (y m d : Int) : Int :=
  let y' : Int := if m ≤ 2 then y - 1 else y
  let era : Int := (if 0 ≤ y' then y' else y' - 399) / 400
  let yoe : Int := y' - era * 400
  let mp : Int := if 2 < m then m - 3 else m + 9
  let doy : Int := (153 * mp + 2) / 5 + d - 1
  let doe : Int := yoe * 365 + yoe / 4 - yoe / 100 + doy
  era * 146097 + doe - 719468

/-- Civil date from day count, inverse of `daysFromCivil`. -/
def civilFromDays (z0 : Int) : Int × Int × Int :=
  let z : Int := z0 + 719468
  let era : Int := (if 0 ≤ z then z else z - 146096) / 146097
  let doe : Int := z - era * 146097
  let yoe : Int := (doe - doe / 1460 + doe / 36524 - doe / 146096) / 365
  let y : Int := yoe + era * 400
  let doy : Int := doe - (365 * yoe + yoe / 4 - yoe / 100)
  let mp : Int := (5 * doy + 2) / 153
  let d : Int := doy - (153 * mp + 2) / 5 + 1
  let m : Int := if mp < 10 then mp + 3 else mp - 9
  (if m ≤ 2 then y + 1 else y, m, d)

/-- Seconds since the epoch for a naive timestamp (microseconds ignored). -/
def DT.toSecs (d : DT) : Int :=
  86400 * daysFromCivil d.year d.month d.day
    + 3600 * (d.hour : Int) + 60 * (d.minute : Int) + (d.second : Int)

/-- Naive timestamp from epoch seconds (microsecond set to 0). -/
def DT.ofSecs (z : Int) : DT :=
  let days : Int := z.ediv 86400
  let rem : Int := (z.emod 86400)
  let c := civilFromDays days
  { year := c.1.toNat, month := c.2.1.toNat, day := c.2.2.toNat
    hour := (rem.ediv 3600).toNat
    minute := ((rem.emod 3600).ediv 60).toNat
    second := (rem.emod 60).toNat
    microsecond := 0 }

/-- Shift a naive timestamp by a number of minutes.  A zero shift is the
    identity (converting between equal UTC offsets leaves the wall time
    unchanged); a nonzero shift goes through epoch seconds. -/
def DT.shiftMinutes (m : Int) (d : DT) : DT :=
  if m = 0 then d else DT.ofSecs (d.toSecs + 60 * m)

/-- Drop sub-second precision, as `dt.replace(microsecond=0)`. -/
def DT.trunc (d : DT) : DT := { d with microsecond := 0 }

/-- Left-pad a decimal rendering with zeros (Python `%0*d`). -/
def natPad (w n : Nat) : String :=
  let s := toString n
  String.mk (List.replicate (w - s.length) '0') ++ s

/-- Python `datetime.isoformat(sep='T')` for a naive datetime. -/
def DT.iso (d : DT) : String :=
  natPad 4 d.year ++ "-" ++ natPad 2 d.month ++ "-" ++ natPad 2 d.day ++ "T"
    ++ natPad 2 d.hour ++ ":" ++ natPad 2 d.minute ++ ":" ++ natPad 2 d.second
    ++ (if d.microsecond = 0 then "" else "." ++ natPad 6 d.microsecond)

/-- Timezone-aware Python datetime: wall time plus optional UTC offset in
    minutes (`none` = naive). -/
structure PyAware where
  wall : DT
  off : Option Int
deriving DecidableEq, Repr

/-- The configured local zone of `calendar_sync.py`
    (`LOCAL_TZ = pytz.timezone('America/Sao_Paulo')`), as a fixed UTC
    offset in minutes. -/
def spOffMin : Int := -180

/-- The `to_local` function of `calendar_sync.py`: naive datetimes are
    localized into the configured zone (wall time unchanged), aware ones
    are converted (`astimezone`). -/
def to_local (d : PyAware) : PyAware :=
  match d.off with
  | none => ⟨d.wall, some spOffMin⟩
  | some o => ⟨DT.shiftMinutes (spOffMin - o) d.wall, some spOffMin⟩

/-- Python `dt.astimezone(LOCAL_TZ)` as used in the `'google'` branch of
    `normalize_event`: a naive datetime is interpreted in the *system*
    timezone (offset `sysOff` minutes) before conversion, an aware one is
    converted from its own offset. -/
def astimezoneLocal (sysOff : Int) (d : PyAware) : PyAware :=
  let o : Int := d.off.getD sysOff
  ⟨DT.shiftMinutes (spOffMin - o) d.wall, some spOffMin⟩

/-- Python's whitespace set for `str.strip()` (ASCII part). -/
def pyIsSpace (c : Char) : Bool :=
  c = ' ' || c = '\t' || c = '\n' || c = '\r' || c = '\x0b' || c = '\x0c'

/-- Python `str.strip()`: remove leading and trailing whitespace. -/
def pyStrip (s : String) : String :=
  ⟨((s.data.dropWhile pyIsSpace).reverse.dropWhile pyIsSpace).reverse⟩

/-- Python `str.startswith(p)`. -/
def pyStartsWith (s p : String) : Bool := p.data.isPrefixOf s.data

/-- Python `c in s` for a single character. -/
def pyContains (s : String) (c : Char) : Bool := s.data.any (fun x => x == c)

/-- One left-to-right pass of Python `str.replace` over the characters,
    replacing non-overlapping occurrences of a nonempty pattern; the fuel
    argument (initially the string length) makes the recursion
    structural. -/
def replaceCore (pat rep : List Char) : Nat → List Char → List Char
  | _, [] => []
  | 0, cs => cs
  | fuel + 1, c :: cs =>
    if pat.isPrefixOf (c :: cs) then
      rep ++ replaceCore pat rep fuel (List.drop (pat.length - 1) cs)
    else
      c :: replaceCore pat rep fuel cs

/-- Python `str.replace(pat, rep)`: every non-overlapping occurrence is
    replaced, left to right; an empty pattern inserts `rep` before every
    character and at the end. -/
def pyReplace (s pat rep : String) : String :=
  if pat = "" then ⟨rep.data ++ s.data.flatMap (fun c => c :: rep.data)⟩
  else ⟨replaceCore pat.data rep.data s.data.length s.data⟩

/-- Value of a decimal digit character. -/
def digitVal? (c : Char) : Option Nat :=
  if c.isDigit then some (c.toNat - 48) else none

/-- Parse exactly `w` decimal digits (most significant first). -/
def parseFixed : Nat → Nat → List Char → Option (Nat × List Char)
  | 0, acc, cs => some (acc, cs)
  | w + 1, acc, c :: cs =>
    match digitVal? c with
    | some d => parseFixed w (acc * 10 + d) cs
    | none => none
  | _ + 1, _, [] => none

/-- Consume one expected character. -/
def expectChar (c : Char) : List Char → Option (List Char)
  | x :: cs => if x = c then some cs else none
  | [] => none

/-- Gregorian leap year. -/
def isLeap (y : Nat) : Bool :=
  (y % 4 = 0 && y % 100 ≠ 0) || y % 400 = 0

/-- Number of days in a month (proleptic Gregorian). -/
def daysInMonth (y m : Nat) : Nat :=
  if m = 2 then (if isLeap y then 29 else 28)
  else if m = 4 || m = 6 || m = 9 || m = 11 then 30
  else 31

/-- Calendar validity as enforced by the Python `datetime` constructor. -/
def DT.valid (d : DT) : Bool :=
  1 ≤ d.year && d.year ≤ 9999 && 1 ≤ d.month && d.month ≤ 12 &&
    1 ≤ d.day && d.day ≤ daysInMonth d.year d.month &&
    d.hour ≤ 23 && d.minute ≤ 59 && d.second ≤ 59 && d.microsecond ≤ 999999

/-- Parse a UTC-offset suffix `+HH:MM` / `-HH:MM` / `Z`, returning the
    offset in minutes; `none` input position means no offset. -/
def parseOffset : List Char → Option (Option Int × List Char)
  | [] => some (none, [])
  | 'Z' :: cs => some (some 0, cs)
  | c :: cs =>
    if c = '+' || c = '-' then do
      let (hh, cs) ← parseFixed 2 0 cs
      let cs ← expectChar ':' cs
      let (mm, cs) ← parseFixed 2 0 cs
      let mins : Int := (hh : Int) * 60 + (mm : Int)
      some (some (if c = '-' then -mins else mins), cs)
    else none

/-- Parse a fractional-second suffix `.d{1..6}`, scaled to microseconds. -/
def parseFraction : List Char → Option (Nat × List Char)
  | '.' :: cs =>
    let digits := cs.takeWhile Char.isDigit
    let rest := cs.dropWhile Char.isDigit
    if digits.length = 0 || 6 < digits.length then none
    else
      let v := digits.foldl (fun acc c => acc * 10 + (c.toNat - 48)) 0
      some (v * 10 ^ (6 - digits.length), rest)
  | cs => some (0, cs)

/-- Model of Python `datetime.fromisoformat` on the formats this code base
    produces and consumes: `YYYY-MM-DD[ T]HH:MM[:SS[.ffffff]][offset]` and
    bare `YYYY-MM-DD`.  Returns the wall-clock fields and the optional UTC
    offset in minutes; `none` models `ValueError`. -/
def fromisoformat (s : String) : Option (DT × Option Int) := do
  let cs := s.toList
  let (y, cs) ← parseFixed 4 0 cs
  let cs ← expectChar '-' cs
  let (mo, cs) ← parseFixed 2 0 cs
  let cs ← expectChar '-' cs
  let (da, cs) ← parseFixed 2 0 cs
  match cs with
  | [] =>
    let d : DT := ⟨y, mo, da, 0, 0, 0, 0⟩
    if d.valid then some (d, none) else none
  | sep :: cs =>
    if sep = ' ' || sep = 'T' then do
      let (h, cs) ← parseFixed 2 0 cs
      let cs ← expectChar ':' cs
      let (mi, cs) ← parseFixed 2 0 cs
      match cs with
      | [] =>
        let d : DT := ⟨y, mo, da, h, mi, 0, 0⟩
        if d.valid then some (d, none) else none
      | ':' :: cs => do
        let (sec, cs) ← parseFixed 2 0 cs
        let (us, cs) ← parseFraction cs
        let (off, cs) ← parseOffset cs
        if cs = [] then
          let d : DT := ⟨y, mo, da, h, mi, sec, us⟩
          if d.valid then some (d, off) else none
        else none
      | cs => do
        let (off, cs) ← parseOffset cs
        if cs = [] then
          let d : DT := ⟨y, mo, da, h, mi, 0, 0⟩
          if d.valid then some (d, off) else none
        else none
    else none

/-- A value handed to `parse_datetime` in `src/utils.py`: either a string
    or an already-built `datetime` object. -/
inductive PyVal where
  | str (s : String)
  | dtObj (d : PyAware)
deriving DecidableEq, Repr

/-- The string branch of `parse_datetime` (`src/utils.py`): replace `'T'`
    by `' '`, cut at the first `'+'` if present, otherwise truncate to 19
    characters when a `'-'` occurs from index 11 on, strip, parse, then
    drop tzinfo and microseconds.  `none` models a raised `ValueError`. -/
def parse_datetime_str (s0 : String) : Option DT :=
  let s1 := pyReplace s0 "T" " "
  let s2 :=
    if pyContains s1 '+' then (⟨s1.data.takeWhile (fun c => !(c == '+'))⟩ : String)
    else if pyContains (s1.drop 11) '-' then s1.take 19
    else s1
  match fromisoformat (pyStrip s2) with
  | some (d, _) => some d.trunc
  | none => none

/-- The `parse_datetime` function of `src/utils.py`: datetime objects get
    tzinfo and microseconds stripped, strings go through the string branch. -/
def parse_datetime : PyVal → Option DT
  | .str s => parse_datetime_str s
  | .dtObj a => some a.wall.trunc

/-- Canonical comparison key `(title, start-iso, end-iso)`. -/
abbrev Key := String × String × String

/-- The `normalize_event` function of `calendar_sync.py`.  The `title`
    argument is the `event.get('title') or ''` value (both fetchers always
    supply a string title).  `none` models an exception escaping from
    `parse_datetime`. -/
def normalize_event (sysOff : Int) (title : String) (start stop : PyVal)
    (source : String) : Option Key := do
  let t := pyStrip title
  let sraw ← parse_datetime start
  let eraw ← parse_datetime stop
  if source = "google" then
    let s := ((astimezoneLocal sysOff ⟨sraw, none⟩).wall).trunc
    let e := ((astimezoneLocal sysOff ⟨eraw, none⟩).wall).trunc
    return (t, s.iso, e.iso)
  else
    let s := ((to_local ⟨sraw, none⟩).wall).trunc
    let e := ((to_local ⟨eraw, none⟩).wall).trunc
    return (t, s.iso, e.iso)

/-- An event record as the orchestrator sees it after fetching: a string
    title, naive start/end datetimes (both fetchers strip tzinfo) and, for
    Google events, the store identifier (`ev.get('id')`). -/
structure RawEvent where
  id : Option String := none
  title : String
  start : DT
  stop : DT
deriving DecidableEq, Repr

/-- Composition `to_local(parse_datetime(dt)).replace(tzinfo=None,
    microsecond=0)` on a naive datetime object, as used on the Teams side
    of `calendar_sync.py`. -/
def localNaive (d : DT) : DT := ((to_local ⟨d.trunc, none⟩).wall).trunc

/-- Composition `parse_datetime` then `.astimezone(LOCAL_TZ)` then
    `.replace(tzinfo=None, microsecond=0)` on a naive datetime object, as
    used on the Google side of `calendar_sync.py` (the naive value is
    interpreted in the system timezone `sysOff`). -/
def googleLocal (sysOff : Int) (d : DT) : DT :=
  ((astimezoneLocal sysOff ⟨d.trunc, none⟩).wall).trunc

/-- `normalize_event(ev, 'teams')` on a fetched event. -/
def normTeams (ev : RawEvent) : Key :=
  (pyStrip ev.title, (localNaive ev.start).iso, (localNaive ev.stop).iso)

/-- `normalize_event(ev, 'google')` on a fetched event. -/
def normGoogle (sysOff : Int) (ev : RawEvent) : Key :=
  (pyStrip ev.title, (googleLocal sysOff ev.start).iso, (googleLocal sysOff ev.stop).iso)

/-- On fetched events (naive datetime objects) the total Teams-side key
    function agrees with `normalize_event`. -/
theorem normalize_event_teams_eq (ev : RawEvent) :
    normalize_event 0 ev.title (.dtObj ⟨ev.start, none⟩) (.dtObj ⟨ev.stop, none⟩) "teams"
      = some (normTeams ev) := rfl

/-- On fetched events the total Google-side key function agrees with
    `normalize_event`. -/
theorem normalize_event_google_eq (sysOff : Int) (ev : RawEvent) :
    normalize_event sysOff ev.title (.dtObj ⟨ev.start, none⟩) (.dtObj ⟨ev.stop, none⟩) "google"
      = some (normGoogle sysOff ev) := rfl

section Dict

variable {κ : Type} [DecidableEq κ] {α : Type} {β : Type}

/-- Lookup in an association list of buckets; a missing key yields `[]`,
    as `dict.get(key, [])` does in `calendar_sync.py`. -/
def getBucket : List (κ × List α) → κ → List α
  | [], _ => []
  | (k', l) :: rest, k => if k' = k then l else getBucket rest k

/-- Append an element to the bucket of `k`, creating the bucket at the end
    when absent — the behavior of `defaultdict(list)[key].append(ev)`
    with Python's insertion-ordered dictionaries. -/
def dictInsert : List (κ × List α) → κ → α → List (κ × List α)
  | [], k, e => [(k, [e])]
  | (k', l) :: rest, k, e =>
    if k' = k then (k', l ++ [e]) :: rest else (k', l) :: dictInsert rest k e

/-- Build the event index: one pass over the events, appending each to the
    bucket of its key (the indexing loops of `calendar_sync.main`). -/
def buildDict (key : α → κ) (evs : List α) : List (κ × List α) :=
  evs.foldl (fun d e => dictInsert d (key e) e) []

/-- Keys of an association list in order. -/
def keysOf (d : List (κ × List α)) : List κ := d.map Prod.fst

theorem getBucket_dictInsert (d : List (κ × List α)) (k : κ) (e : α) (j : κ) :
    getBucket (dictInsert d k e) j =
      if k = j then getBucket d j ++ [e] else getBucket d j := by
  induction d with
  | nil =>
    by_cases h : k = j <;> simp [dictInsert, getBucket, h]
  | cons hd rest ih =>
    obtain ⟨k', l⟩ := hd
    by_cases h1 : k' = k
    · subst h1
      by_cases h2 : k' = j <;> simp [dictInsert, getBucket, h2]
    · by_cases h2 : k' = j
      · subst h2
        have : ¬ k = k' := fun h => h1 h.symm
        simp [dictInsert, getBucket, h1, this]
      · simp [dictInsert, getBucket, h1, h2, ih]

theorem getBucket_foldl (key : α → κ) (l : List α) (d : List (κ × List α)) (j : κ) :
    getBucket (l.foldl (fun d e => dictInsert d (key e) e) d) j =
      getBucket d j ++ l.filter (fun e => decide (key e = j)) := by
  induction l generalizing d with
  | nil => simp
  | cons e l ih =>
    simp only [List.foldl_cons, ih, getBucket_dictInsert]
    by_cases h : key e = j
    · simp [h]
    · simp [h]

/-- The bucket of `k` in the built index is exactly the sublist of events
    whose key is `k`, in encounter order. -/
theorem getBucket_buildDict (key : α → κ) (evs : List α) (j : κ) :
    getBucket (buildDict key evs) j = evs.filter (fun e => decide (key e = j)) := by
  simpa [buildDict, getBucket] using getBucket_foldl key evs [] j

theorem keysOf_dictInsert (d : List (κ × List α)) (k : κ) (e : α) :
    keysOf (dictInsert d k e) = if k ∈ keysOf d then keysOf d else keysOf d ++ [k] := by
  induction d with
  | nil => simp [dictInsert, keysOf]
  | cons hd rest ih =>
    obtain ⟨k', l⟩ := hd
    by_cases h1 : k' = k
    · subst h1
      simp [dictInsert, keysOf]
    · have hne : ¬ k = k' := fun h => h1 h.symm
      simp only [keysOf, List.map_cons] at ih ⊢
      have hstep : dictInsert ((k', l) :: rest) k e = (k', l) :: dictInsert rest k e := by
        simp [dictInsert, h1]
      rw [hstep]
      by_cases h2 : k ∈ List.map Prod.fst rest
      · simp [hne, h2, ih]
      · simp [hne, h2, ih]

theorem nodup_keysOf_dictInsert (d : List (κ × List α)) (k : κ) (e : α)
    (h : (keysOf d).Nodup) : (keysOf (dictInsert d k e)).Nodup := by
  rw [keysOf_dictInsert]
  by_cases hk : k ∈ keysOf d
  · simpa [hk]
  · rw [if_neg hk]
    simp only [List.nodup_append, List.nodup_cons, List.nodup_nil]
    exact ⟨h, by simp, by simpa [List.disjoint_singleton] using hk⟩

theorem nodup_keysOf_foldl (key : α → κ) (l : List α) (d : List (κ × List α))
    (h : (keysOf d).Nodup) :
    (keysOf (l.foldl (fun d e => dictInsert d (key e) e) d)).Nodup := by
  induction l generalizing d with
  | nil => simpa
  | cons e l ih => exact ih _ (nodup_keysOf_dictInsert _ _ _ h)

/-- Keys of the built index are pairwise distinct. -/
theorem nodup_keysOf_buildDict (key : α → κ) (evs : List α) :
    (keysOf (buildDict key evs)).Nodup :=
  nodup_keysOf_foldl key evs [] (by simp [keysOf])

/-- With distinct keys, membership of an entry determines the bucket. -/
theorem getBucket_of_mem {d : List (κ × List α)} {k : κ} {l : List α}
    (hmem : (k, l) ∈ d) (hnd : (keysOf d).Nodup) : getBucket d k = l := by
  induction d with
  | nil => simp at hmem
  | cons hd rest ih =>
    obtain ⟨k', l'⟩ := hd
    have hnd1 : k' ∉ keysOf rest := by
      have := List.nodup_cons.mp (show (k' :: keysOf rest).Nodup from hnd)
      exact this.1
    have hnd2 : (keysOf rest).Nodup := by
      have := List.nodup_cons.mp (show (k' :: keysOf rest).Nodup from hnd)
      exact this.2
    rcases List.mem_cons.mp hmem with h | h
    · injection h with h1 h2
      subst h1
      subst h2
      simp [getBucket]
    · have hne : k' ≠ k := by
        intro hEq
        subst hEq
        exact hnd1 (List.mem_map.mpr ⟨(k', l), h, rfl⟩)
      simp [getBucket, hne, ih h hnd2]

/-- A nonempty bucket comes from an entry of the dictionary. -/
theorem mem_of_getBucket_ne_nil {d : List (κ × List α)} {k : κ}
    (h : getBucket d k ≠ []) : (k, getBucket d k) ∈ d := by
  induction d with
  | nil => simp [getBucket] at h
  | cons hd rest ih =>
    obtain ⟨k', l'⟩ := hd
    by_cases hk : k' = k
    · subst hk
      refine List.mem_cons.mpr (Or.inl ?_)
      simp [getBucket]
    · simp only [getBucket, if_neg hk] at h ⊢
      exact List.mem_cons_of_mem _ (ih h)

/-- Filtering the concatenation of per-entry operation lists by key
    collapses to the single entry of that key. -/
theorem filter_bind_eq_bucket (d : List (κ × List α)) (f : κ × List α → List β)
    (keyOf : β → κ) (k : κ) (hnd : (keysOf d).Nodup)
    (hf : ∀ e ∈ d, ∀ x ∈ f e, keyOf x = e.1)
    (hnil : f (k, getBucket d k) = [] ∨ (k, getBucket d k) ∈ d) :
    (d.flatMap f).filter (fun x => decide (keyOf x = k)) = f (k, getBucket d k) := by
  induction d with
  | nil =>
    rcases hnil with h | h
    · simpa [getBucket] using h.symm
    · simp at h
  | cons hd rest ih =>
    obtain ⟨k₁, l₁⟩ := hd
    have hndc := List.nodup_cons.mp (show (k₁ :: keysOf rest).Nodup from hnd)
    have hnd1 : k₁ ∉ keysOf rest := hndc.1
    have hnd2 : (keysOf rest).Nodup := hndc.2
    by_cases hk : k₁ = k
    · subst hk
      have h1 : (f (k₁, l₁)).filter (fun x => decide (keyOf x = k₁)) = f (k₁, l₁) := by
        rw [List.filter_eq_self]
        intro a ha
        simp [hf (k₁, l₁) (List.mem_cons_self _ _) a ha]
      have h2 : (rest.flatMap f).filter (fun x => decide (keyOf x = k₁)) = [] := by
        rw [List.filter_eq_nil_iff]
        intro a ha hka
        obtain ⟨e, he, hae⟩ := List.mem_flatMap.mp ha
        have hkey := hf e (List.mem_cons_of_mem _ he) a hae
        apply hnd1
        have he1 : e.1 = k₁ := hkey.symm.trans (of_decide_eq_true hka)
        exact List.mem_map.mpr ⟨e, he, he1⟩
      simp [List.filter_append, h1, h2, getBucket]
    · have h1 : (f (k₁, l₁)).filter (fun x => decide (keyOf x = k)) = [] := by
        rw [List.filter_eq_nil_iff]
        intro a ha h
        exact hk ((hf (k₁, l₁) (List.mem_cons_self _ _) a ha).symm.trans
          (of_decide_eq_true h))
      have hbk : getBucket ((k₁, l₁) :: rest) k = getBucket rest k := by
        simp [getBucket, hk]
      have hnil' : f (k, getBucket rest k) = [] ∨ (k, getBucket rest k) ∈ rest := by
        rcases hnil with h | h
        · exact Or.inl (hbk ▸ h)
        · rw [hbk] at h
          rcases List.mem_cons.mp h with h' | h'
          · exact (hk (congrArg Prod.fst h').symm).elim
          · exact Or.inr h'
      have ih' := ih hnd2 (fun e he x hx => hf e (List.mem_cons_of_mem _ he) x hx) hnil'
      simp [List.filter_append, h1, getBucket, hk, ih']

end Dict

/-- A create request as passed to `create_google_event` in step 5 of
    `calendar_sync.main`: the dictionary `{'title', 'start', 'end'}` with
    the start/end rendered by `isoformat(sep='T')`.  The fields `startDT`
    and `stopDT` record the datetime values whose renderings were sent;
    they carry no extra information (`startStr = startDT.iso`,
    `stopStr = stopDT.iso` for every operation the model emits) and let
    the store collaborator be modelled without re-parsing the strings. -/
structure CreateOp where
  title : String
  startStr : String
  stopStr : String
  startDT : DT
  stopDT : DT
deriving DecidableEq, Repr

/-- The create request built from the template event (first entry of the
    source bucket) in `calendar_sync.main` step 5. -/
def mkCreateOp (tmpl : RawEvent) : CreateOp :=
  { title := tmpl.title
    startStr := (localNaive tmpl.start).iso
    stopStr := (localNaive tmpl.stop).iso
    startDT := localNaive tmpl.start
    stopDT := localNaive tmpl.stop }

/-- Canonical key of the event a create request gives rise to (trimmed
    title with the local start/end strings of the request body). -/
def createKey (c : CreateOp) : Key := (pyStrip c.title, c.startStr, c.stopStr)

/-- Step 5 of `calendar_sync.main` for one key of the Teams index: when
    the Teams bucket is larger than the Google bucket, emit one create
    per missing occurrence, all copied from the first bucket entry. -/
def createOpsForKey (gdict : List (Key × List RawEvent)) :
    Key × List RawEvent → List CreateOp
  | (k, tl) =>
    let gl := getBucket gdict k
    match tl with
    | [] => []
    | tmpl :: rest =>
      if gl.length < (tmpl :: rest).length then
        List.replicate ((tmpl :: rest).length - gl.length) (mkCreateOp tmpl)
      else []

/-- Step 6 of `calendar_sync.main` for one key of the Google index: when
    the Google bucket is larger than the Teams bucket, delete the first
    surplus entries of the Google bucket in indexed order. -/
def deleteOpsForKey (tdict : List (Key × List RawEvent)) :
    Key × List RawEvent → List RawEvent
  | (k, gl) =>
    let tl := getBucket tdict k
    if tl.length < gl.length then gl.take (gl.length - tl.length) else []

/-- The key derived from a cancellation event in step 4 of
    `calendar_sync.main`: `title.replace(CANCEL_PREFIX, "").strip()`
    (note: Python `str.replace` removes *every* occurrence of the marker)
    together with the event's own local-normalized start/end. -/
def cancelKey (marker : String) (ev : RawEvent) : Key :=
  (pyStrip (pyReplace ev.title marker ""),
    (localNaive ev.start).iso, (localNaive ev.stop).iso)

/-- Step 4 of `calendar_sync.main`: for each cancellation event look its
    derived key up in the Google index; when the bucket is nonempty delete
    every event in it (counting each deletion), otherwise count the event
    as unmatched.  Returns (delete targets, canceled_deleted_count,
    missing_cancel_matches). -/
def cancelStage (marker : String) (gdict : List (Key × List RawEvent)) :
    List RawEvent → List RawEvent × Nat × Nat
  | [] => ([], 0, 0)
  | c :: rest =>
    let b := getBucket gdict (cancelKey marker c)
    let r := cancelStage marker gdict rest
    if b.isEmpty then (r.1, r.2.1, r.2.2 + 1)
    else (b ++ r.1, b.length + r.2.1, r.2.2)

/-- The operations and counters produced by one run of
    `calendar_sync.main` after both fetches succeeded. -/
structure RunOut where
  cancelDeletes : List RawEvent
  canceledDeletedCount : Nat
  missingCancelMatches : Nat
  createOps : List CreateOp
  deleteOps : List RawEvent
deriving DecidableEq, Repr

/-- The non-cancellation Teams events (those indexed into `teams_dict`). -/
def regularOf (marker : String) (teams : List RawEvent) : List RawEvent :=
  teams.filter (fun ev => !(pyStartsWith ev.title marker))

/-- The cancellation events (routed to step 4 instead of the index). -/
def canceladosOf (marker : String) (teams : List RawEvent) : List RawEvent :=
  teams.filter (fun ev => pyStartsWith ev.title marker)

/-- The Teams index (`teams_dict`). -/
def teamsDict (marker : String) (teams : List RawEvent) : List (Key × List RawEvent) :=
  buildDict normTeams (regularOf marker teams)

/-- The Google index (`google_dict`). -/
def googleDict (sysOff : Int) (google : List RawEvent) : List (Key × List RawEvent) :=
  buildDict (normGoogle sysOff) google

/-- Steps 3-6 of `calendar_sync.main`: split off cancellation events,
    build both indices, run the cancellation stage against the Google
    index, then compute the diff-stage create and delete operations.
    `created_count` and `deleted_count` are the lengths of the emitted
    operation lists (each API call increments the counter once). -/
def runModel (marker : String) (sysOff : Int) (teams google : List RawEvent) : RunOut :=
  let tdict := teamsDict marker teams
  let gdict := googleDict sysOff google
  let c := cancelStage marker gdict (canceladosOf marker teams)
  { cancelDeletes := c.1
    canceledDeletedCount := c.2.1
    missingCancelMatches := c.2.2
    createOps := tdict.flatMap (createOpsForKey gdict)
    deleteOps := gdict.flatMap (deleteOpsForKey tdict) }

/-- `created_count` at the end of a run. -/
def RunOut.created (r : RunOut) : Nat := r.createOps.length

/-- `deleted_count` at the end of a run. -/
def RunOut.deleted (r : RunOut) : Nat := r.deleteOps.length

section Apply

variable {σ : Type}

/-- Apply the create calls of a run to a view of the target store: each
    insert adds one event to the store. -/
def applyCreates (mkNew : CreateOp → σ) (st : List σ) (cs : List CreateOp) : List σ :=
  cs.foldl (fun st c => st ++ [mkNew c]) st

/-- Apply the delete calls of a run to a view of the target store:
    `delete_google_event_by_id` removes the event carrying the given id,
    and performs no deletion when the id is missing. -/
def applyDeletes (idS : σ → Option String) (st : List σ) (ds : List RawEvent) : List σ :=
  ds.foldl (fun st g =>
    match g.id with
    | none => st
    | some i => st.filter (fun x => decide (idS x ≠ some i))) st

/-- Whether an event with the given store id survives the delete calls. -/
def keepAfter (ds : List RawEvent) : Option String → Bool
  | none => true
  | some i => !(decide (i ∈ ds.filterMap RawEvent.id))

theorem applyCreates_eq (mkNew : CreateOp → σ) (st : List σ) (cs : List CreateOp) :
    applyCreates mkNew st cs = st ++ cs.map mkNew := by
  induction cs generalizing st with
  | nil => simp [applyCreates]
  | cons c cs ih =>
    simp only [applyCreates, List.foldl_cons, List.map_cons] at ih ⊢
    rw [ih, List.append_assoc]
    rfl

theorem keepAfter_cons_none {g : RawEvent} (hg : g.id = none) (ds : List RawEvent)
    (oid : Option String) : keepAfter (g :: ds) oid = keepAfter ds oid := by
  cases oid with
  | none => rfl
  | some i => simp [keepAfter, List.filterMap_cons, hg]

theorem keepAfter_cons_some {g : RawEvent} {i : String} (hg : g.id = some i)
    (ds : List RawEvent) (oid : Option String) :
    keepAfter (g :: ds) oid = (decide (oid ≠ some i) && keepAfter ds oid) := by
  cases oid with
  | none => simp [keepAfter]
  | some j =>
    simp only [keepAfter, List.filterMap_cons, hg]
    by_cases h : j = i
    · subst h
      simp
    · simp [h, Ne.symm h]

theorem applyDeletes_eq (idS : σ → Option String) (st : List σ) (ds : List RawEvent) :
    applyDeletes idS st ds = st.filter (fun x => keepAfter ds (idS x)) := by
  induction ds generalizing st with
  | nil =>
    rw [List.filter_eq_self.mpr]
    · rfl
    · intro a _
      cases idS a <;> rfl
  | cons g ds ih =>
    cases hg : g.id with
    | none =>
      have hstep : applyDeletes idS st (g :: ds) = applyDeletes idS st ds := by
        simp [applyDeletes, hg]
      rw [hstep, ih]
      exact List.filter_congr (fun x _ => (keepAfter_cons_none hg ds (idS x)).symm)
    | some i =>
      have hstep : applyDeletes idS st (g :: ds) =
          applyDeletes idS (st.filter (fun x => decide (idS x ≠ some i))) ds := by
        simp [applyDeletes, hg]
      rw [hstep, ih, List.filter_filter]
      exact List.filter_congr (fun x _ => by
        rw [keepAfter_cons_some hg ds (idS x), Bool.and_comm])

end Apply

/-- Every entry of a built index holds exactly the events of its key. -/
theorem mem_buildDict_elim {α : Type} {key : α → Key} {evs : List α}
    {e : Key × List α} (he : e ∈ buildDict key evs) :
    e.2 = evs.filter (fun x => decide (key x = e.1)) := by
  have h1 : getBucket (buildDict key evs) e.1 = e.2 := by
    obtain ⟨k, l⟩ := e
    exact getBucket_of_mem he (nodup_keysOf_buildDict key evs)
  rw [← h1, getBucket_buildDict]

/-- A bucket is either empty or its entry belongs to the dictionary. -/
theorem bucket_nil_or_mem {α : Type} (d : List (Key × List α)) (k : Key) :
    getBucket d k = [] ∨ (k, getBucket d k) ∈ d := by
  by_cases h : getBucket d k = []
  · exact Or.inl h
  · exact Or.inr (mem_of_getBucket_ne_nil h)

/-- Length of the per-key create list of the diff stage. -/
theorem createOpsForKey_length (gdict : List (Key × List RawEvent))
    (k : Key) (tl : List RawEvent) :
    (createOpsForKey gdict (k, tl)).length =
      if (getBucket gdict k).length < tl.length
      then tl.length - (getBucket gdict k).length else 0 := by
  cases tl with
  | nil => simp [createOpsForKey]
  | cons tmpl rest =>
    show (if (getBucket gdict k).length < (tmpl :: rest).length then
        List.replicate ((tmpl :: rest).length - (getBucket gdict k).length) (mkCreateOp tmpl)
      else []).length = _
    by_cases h : (getBucket gdict k).length < (tmpl :: rest).length
    · rw [if_pos h, if_pos h, List.length_replicate]
    · rw [if_neg h, if_neg h, List.length_nil]

/-- Every emitted create operation is built from a template event of its
    source bucket, so its key is the bucket's key. -/
theorem createOps_key {marker : String} {sysOff : Int}
    {teams google : List RawEvent} {c : CreateOp}
    (hc : c ∈ (runModel marker sysOff teams google).createOps) :
    ∃ tmpl ∈ regularOf marker teams, c = mkCreateOp tmpl ∧ createKey c = normTeams tmpl := by
  obtain ⟨e, he, hce⟩ := List.mem_flatMap.mp hc
  obtain ⟨k, tl⟩ := e
  cases tl with
  | nil => simp [createOpsForKey] at hce
  | cons tmpl rest =>
    have hce' : c ∈ (if (getBucket (googleDict sysOff google) k).length < (tmpl :: rest).length
        then List.replicate ((tmpl :: rest).length - (getBucket (googleDict sysOff google) k).length)
          (mkCreateOp tmpl)
        else []) := hce
    have hc' : c = mkCreateOp tmpl := by
      by_cases h : (getBucket (googleDict sysOff google) k).length < (tmpl :: rest).length
      · rw [if_pos h] at hce'
        exact List.eq_of_mem_replicate hce'
      · rw [if_neg h] at hce'
        simp at hce'
    have hbucket : (tmpl :: rest) =
        (regularOf marker teams).filter (fun x => decide (normTeams x = k)) :=
      mem_buildDict_elim he
    have htmpl : tmpl ∈ regularOf marker teams ∧ normTeams tmpl = k := by
      have hm : tmpl ∈ (tmpl :: rest) := List.mem_cons_self _ _
      rw [hbucket] at hm
      obtain ⟨hmem, hkey⟩ := List.mem_filter.mp hm
      exact ⟨hmem, of_decide_eq_true hkey⟩
    exact ⟨tmpl, htmpl.1, hc', by rw [hc']; rfl⟩

/-- Keys of create operations emitted for a dictionary entry whose bucket
    holds exactly the events of its key. -/
theorem createOpsForKey_key (gdict : List (Key × List RawEvent))
    (e : Key × List RawEvent) (hbucket : ∀ x ∈ e.2, normTeams x = e.1) :
    ∀ c ∈ createOpsForKey gdict e, createKey c = e.1 := by
  obtain ⟨k, tl⟩ := e
  intro c hc
  cases tl with
  | nil => simp [createOpsForKey] at hc
  | cons tmpl rest =>
    have hce' : c ∈ (if (getBucket gdict k).length < (tmpl :: rest).length
        then List.replicate ((tmpl :: rest).length - (getBucket gdict k).length)
          (mkCreateOp tmpl)
        else []) := hc
    by_cases h : (getBucket gdict k).length < (tmpl :: rest).length
    · rw [if_pos h] at hce'
      rw [List.eq_of_mem_replicate hce']
      exact hbucket tmpl (List.mem_cons_self _ _)
    · rw [if_neg h] at hce'
      simp at hce'

/-- Membership of delete operations emitted for a dictionary entry. -/
theorem deleteOpsForKey_subset (tdict : List (Key × List RawEvent))
    (e : Key × List RawEvent) : ∀ x ∈ deleteOpsForKey tdict e, x ∈ e.2 := by
  obtain ⟨k, gl⟩ := e
  intro x hx
  have hx' : x ∈ (if (getBucket tdict k).length < gl.length
      then gl.take (gl.length - (getBucket tdict k).length) else []) := hx
  by_cases h : (getBucket tdict k).length < gl.length
  · rw [if_pos h] at hx'
    exact List.mem_of_mem_take hx'
  · rw [if_neg h] at hx'
    simp at hx'

/-- The per-key delete list, written without the guard: taking zero
    elements when the Teams bucket is at least as large. -/
theorem deleteOpsForKey_eq_take (tdict : List (Key × List RawEvent))
    (k : Key) (gl : List RawEvent) :
    deleteOpsForKey tdict (k, gl) =
      gl.take (gl.length - (getBucket tdict k).length) := by
  show (if (getBucket tdict k).length < gl.length
      then gl.take (gl.length - (getBucket tdict k).length) else []) = _
  by_cases h : (getBucket tdict k).length < gl.length
  · rw [if_pos h]
  · rw [if_neg h, Nat.sub_eq_zero_of_le (Nat.le_of_not_lt h), List.take_zero]

/-- The create operations of the diff stage, restricted to the canonical
    key they realize, are exactly the per-key create list. -/
theorem createOps_filter_eq (marker : String) (sysOff : Int)
    (teams google : List RawEvent) (k : Key) :
    (runModel marker sysOff teams google).createOps.filter
        (fun c => decide (createKey c = k)) =
      createOpsForKey (googleDict sysOff google)
        (k, getBucket (teamsDict marker teams) k) := by
  apply filter_bind_eq_bucket
  · exact nodup_keysOf_buildDict _ _
  · intro e he c hc
    exact createOpsForKey_key _ e
      (fun x hx => by
        have := mem_buildDict_elim he ▸ hx
        exact of_decide_eq_true (List.mem_filter.mp this).2) c hc
  · rcases bucket_nil_or_mem (teamsDict marker teams) k with h | h
    · rw [h]
      exact Or.inl rfl
    · exact Or.inr h

/-- The delete operations of the diff stage, restricted to the canonical
    key of the targeted event, are the first surplus entries of that
    key's Google bucket. -/
theorem deleteOps_filter_eq (marker : String) (sysOff : Int)
    (teams google : List RawEvent) (k : Key) :
    (runModel marker sysOff teams google).deleteOps.filter
        (fun x => decide (normGoogle sysOff x = k)) =
      (getBucket (googleDict sysOff google) k).take
        ((getBucket (googleDict sysOff google) k).length
          - (getBucket (teamsDict marker teams) k).length) := by
  rw [← deleteOpsForKey_eq_take]
  apply filter_bind_eq_bucket
  · exact nodup_keysOf_buildDict _ _
  · intro e he x hx
    have hmem : x ∈ e.2 := deleteOpsForKey_subset _ e x hx
    have := mem_buildDict_elim he ▸ hmem
    exact of_decide_eq_true (List.mem_filter.mp this).2
  · rcases bucket_nil_or_mem (googleDict sysOff google) k with h | h
    · rw [h]
      exact Or.inl (by rw [deleteOpsForKey_eq_take]; simp)
    · exact Or.inr h

/-- Every delete operation of the diff stage targets a fetched Google
    event. -/
theorem deleteOps_mem (marker : String) (sysOff : Int)
    (teams google : List RawEvent) :
    ∀ x ∈ (runModel marker sysOff teams google).deleteOps, x ∈ google := by
  intro x hx
  obtain ⟨e, he, hxe⟩ := List.mem_flatMap.mp hx
  have hmem : x ∈ e.2 := deleteOpsForKey_subset _ e x hxe
  have := mem_buildDict_elim he ▸ hmem
  exact (List.mem_filter.mp this).1

/-- Central counting lemma: applying the diff-stage creates and deletes
    of a run to any faithful view of the fetched Google events leaves,
    for every canonical key, exactly as many stored events as the source
    has in its bucket of that key. -/
theorem run_apply_countP {σ : Type} (keyS : σ → Key) (idS : σ → Option String)
    (mkNew : CreateOp → σ) (embed : RawEvent → σ)
    (marker : String) (sysOff : Int) (teams google : List RawEvent)
    (hembedK : ∀ g, keyS (embed g) = normGoogle sysOff g)
    (hembedI : ∀ g, idS (embed g) = g.id)
    (hnewK : ∀ c ∈ (runModel marker sysOff teams google).createOps,
      keyS (mkNew c) = createKey c)
    (hnewI : ∀ c, idS (mkNew c) = none)
    (hsome : ∀ g ∈ google, (g.id).isSome = true)
    (hnodup : (google.map RawEvent.id).Nodup) (k : Key) :
    ((applyDeletes idS
        (applyCreates mkNew (google.map embed)
          (runModel marker sysOff teams google).createOps)
        (runModel marker sysOff teams google).deleteOps).countP
      (fun x => decide (keyS x = k)))
      = (regularOf marker teams).countP (fun e => decide (normTeams e = k)) := by
  have hds := deleteOps_filter_eq marker sysOff teams google k
  have hcs := createOps_filter_eq marker sysOff teams google k
  have hgnd : google.Nodup := hnodup.of_map
  have hbknd : (getBucket (googleDict sysOff google) k).Nodup := by
    rw [googleDict, getBucket_buildDict]
    exact hgnd.filter _
  have hbkmem : ∀ x ∈ getBucket (googleDict sysOff google) k,
      x ∈ google ∧ normGoogle sysOff x = k := by
    intro x hx
    rw [googleDict, getBucket_buildDict] at hx
    obtain ⟨h1, h2⟩ := List.mem_filter.mp hx
    exact ⟨h1, of_decide_eq_true h2⟩
  -- abbreviations for readability of the proof below
  generalize hr : runModel marker sysOff teams google = r at hds hcs hnewK
  generalize hbk : getBucket (googleDict sysOff google) k = bk at hds hbknd hbkmem
  generalize hsk : getBucket (teamsDict marker teams) k = sbk at hds hcs
  rw [applyCreates_eq, applyDeletes_eq, List.countP_filter, List.countP_append]
  -- the created events contribute the per-key create count
  have hB : (r.createOps.map mkNew).countP
        (fun x => decide (keyS x = k) && keepAfter r.deleteOps (idS x))
      = r.createOps.countP (fun c => decide (createKey c = k)) := by
    rw [List.countP_map, List.countP_eq_length_filter, List.countP_eq_length_filter]
    congr 1
    apply List.filter_congr
    intro c hc
    rw [Function.comp_apply, hnewK c hc, hnewI c]
    simp [keepAfter]
  have hBval : r.createOps.countP (fun c => decide (createKey c = k))
      = if bk.length < sbk.length then sbk.length - bk.length else 0 := by
    rw [List.countP_eq_length_filter, hcs, createOpsForKey_length, hbk]
  -- the fetched store events contribute the survivors of the bucket
  have htake : ∀ x ∈ bk.take (bk.length - sbk.length),
      keepAfter r.deleteOps x.id = false := by
    intro x hx
    have hxds : x ∈ r.deleteOps := by
      have hxf : x ∈ r.deleteOps.filter (fun y => decide (normGoogle sysOff y = k)) := by
        rw [hds]
        exact hx
      exact (List.mem_filter.mp hxf).1
    have hxg : x ∈ google := (hbkmem x (List.mem_of_mem_take hx)).1
    obtain ⟨i, hi⟩ := Option.isSome_iff_exists.mp (hsome x hxg)
    rw [hi]
    simp only [keepAfter, Bool.not_eq_false', decide_eq_true_iff]
    exact List.mem_filterMap.mpr ⟨x, hxds, hi⟩
  have hdrop : ∀ x ∈ bk.drop (bk.length - sbk.length),
      keepAfter r.deleteOps x.id = true := by
    intro x hx
    have hxbk : x ∈ bk := List.mem_of_mem_drop hx
    obtain ⟨hxg, hxkey⟩ := hbkmem x hxbk
    obtain ⟨i, hi⟩ := Option.isSome_iff_exists.mp (hsome x hxg)
    rw [hi]
    simp only [keepAfter, Bool.not_eq_true', decide_eq_false_iff_not]
    intro hmem
    obtain ⟨gev, hgevds, hgevid⟩ := List.mem_filterMap.mp hmem
    have hgevg : gev ∈ google := by
      have := deleteOps_mem marker sysOff teams google gev
      rw [hr] at this
      exact this hgevds
    have hxeq : x = gev :=
      List.inj_on_of_nodup_map hnodup hxg hgevg (by rw [hi, hgevid])
    have hgevkey : normGoogle sysOff gev = k := hxeq ▸ hxkey
    have hgevtake : gev ∈ bk.take (bk.length - sbk.length) := by
      have hgf : gev ∈ r.deleteOps.filter (fun y => decide (normGoogle sysOff y = k)) :=
        List.mem_filter.mpr ⟨hgevds, by rw [hgevkey]; exact decide_eq_true rfl⟩
      rw [hds] at hgf
      exact hgf
    have hdisj : List.Disjoint (bk.take (bk.length - sbk.length))
        (bk.drop (bk.length - sbk.length)) := by
      have hnd : (bk.take (bk.length - sbk.length)
          ++ bk.drop (bk.length - sbk.length)).Nodup := by
        rw [List.take_append_drop]
        exact hbknd
      exact (List.nodup_append.mp hnd).2.2
    exact hdisj hgevtake (hxeq ▸ hx)
  have hA : (google.map embed).countP
        (fun x => decide (keyS x = k) && keepAfter r.deleteOps (idS x))
      = bk.length - (bk.length - sbk.length) := by
    rw [List.countP_map]
    have h1 : google.countP
          ((fun x => decide (keyS x = k) && keepAfter r.deleteOps (idS x)) ∘ embed)
        = google.countP
          (fun g => keepAfter r.deleteOps g.id && decide (normGoogle sysOff g = k)) := by
      rw [List.countP_eq_length_filter, List.countP_eq_length_filter]
      congr 1
      apply List.filter_congr
      intro g _
      rw [Function.comp_apply, hembedK g, hembedI g, Bool.and_comm]
    rw [h1, ← List.countP_filter]
    have h2 : google.filter (fun g => decide (normGoogle sysOff g = k)) = bk := by
      rw [← hbk, googleDict, getBucket_buildDict]
    rw [h2]
    have h3 : bk.countP (fun g => keepAfter r.deleteOps g.id)
        = (bk.take (bk.length - sbk.length)).countP (fun g => keepAfter r.deleteOps g.id)
          + (bk.drop (bk.length - sbk.length)).countP (fun g => keepAfter r.deleteOps g.id) := by
      conv_lhs => rw [← List.take_append_drop (bk.length - sbk.length) bk]
      rw [List.countP_append]
    rw [h3]
    have h4 : (bk.take (bk.length - sbk.length)).countP
        (fun g => keepAfter r.deleteOps g.id) = 0 := by
      rw [List.countP_eq_zero]
      intro a ha
      rw [htake a ha]
      exact Bool.false_ne_true
    have h5 : (bk.drop (bk.length - sbk.length)).countP
        (fun g => keepAfter r.deleteOps g.id)
        = (bk.drop (bk.length - sbk.length)).length := by
      rw [List.countP_eq_length]
      exact hdrop
    rw [h4, h5, List.length_drop, Nat.zero_add]
  rw [hA, hB, hBval]
  have hreg : (regularOf marker teams).countP (fun e => decide (normTeams e = k))
      = sbk.length := by
    rw [List.countP_eq_length_filter, ← getBucket_buildDict normTeams,
      show buildDict normTeams (regularOf marker teams) = teamsDict marker teams from rfl,
      hsk]
  rw [hreg]
  by_cases h : bk.length < sbk.length <;> simp [h] <;> omega

/-- View of one target-store event for counting purposes: its canonical
    key and its store id. -/
abbrev StoreItem := Key × Option String

/-- The store item of a fetched Google event. -/
def itemOfGoogle (sysOff : Int) (g : RawEvent) : StoreItem :=
  (normGoogle sysOff g, g.id)

/-- The store item of an event inserted by a create operation (no id is
    known to the run that created it). -/
def itemOfCreate (c : CreateOp) : StoreItem := (createKey c, none)

/-- The per-key create list written as an unguarded `replicate` (taking
    the truncated difference of the bucket sizes). -/
theorem createOpsForKey_eq_replicate (gdict : List (Key × List RawEvent))
    (k : Key) (tl : List RawEvent) :
    createOpsForKey gdict (k, tl) =
      (match tl.head? with
       | some tmpl =>
         List.replicate (tl.length - (getBucket gdict k).length) (mkCreateOp tmpl)
       | none => []) := by
  cases tl with
  | nil => rfl
  | cons tmpl rest =>
    show (if (getBucket gdict k).length < (tmpl :: rest).length
        then List.replicate ((tmpl :: rest).length - (getBucket gdict k).length)
          (mkCreateOp tmpl)
        else []) = _
    by_cases h : (getBucket gdict k).length < (tmpl :: rest).length
    · rw [if_pos h]
      rfl
    · rw [if_neg h]
      show _ = List.replicate ((tmpl :: rest).length - (getBucket gdict k).length) _
      rw [Nat.sub_eq_zero_of_le (Nat.le_of_not_lt h), List.replicate_zero]

/-- No creates are emitted for a key whose Google bucket is at least as
    large as its Teams bucket. -/
theorem createOpsForKey_eq_nil (gdict : List (Key × List RawEvent))
    (k : Key) (tl : List RawEvent)
    (h : tl.length ≤ (getBucket gdict k).length) :
    createOpsForKey gdict (k, tl) = [] := by
  rw [createOpsForKey_eq_replicate, Nat.sub_eq_zero_of_le h]
  cases tl.head? <;> rfl

/-- No deletes are emitted for a key whose Teams bucket is at least as
    large as its Google bucket. -/
theorem deleteOpsForKey_eq_nil (tdict : List (Key × List RawEvent))
    (k : Key) (gl : List RawEvent)
    (h : gl.length ≤ (getBucket tdict k).length) :
    deleteOpsForKey tdict (k, gl) = [] := by
  rw [deleteOpsForKey_eq_take, Nat.sub_eq_zero_of_le h, List.take_zero]

/-- Closed form of the cancellation stage: the delete targets are the
    whole Google bucket of each cancellation-derived key, in order. -/
theorem cancelStage_deletes (marker : String)
    (gdict : List (Key × List RawEvent)) (cevs : List RawEvent) :
    (cancelStage marker gdict cevs).1 =
      cevs.flatMap (fun c => getBucket gdict (cancelKey marker c)) := by
  induction cevs with
  | nil => rfl
  | cons c rest ih =>
    show (let b := getBucket gdict (cancelKey marker c)
      let r := cancelStage marker gdict rest
      if b.isEmpty then (r.1, r.2.1, r.2.2 + 1)
      else (b ++ r.1, b.length + r.2.1, r.2.2)).1 = _
    by_cases hb : (getBucket gdict (cancelKey marker c)).isEmpty
    · simp only [hb, if_pos, List.flatMap_cons]
      rw [List.isEmpty_iff.mp hb]
      simpa using ih
    · simp only [hb, if_neg, Bool.false_eq_true, List.flatMap_cons]
      simpa using ih

/-- Closed form of `canceled_deleted_count`: the sum of the bucket sizes
    of the matched cancellation keys. -/
theorem cancelStage_count (marker : String)
    (gdict : List (Key × List RawEvent)) (cevs : List RawEvent) :
    (cancelStage marker gdict cevs).2.1 =
      (cevs.map (fun c => (getBucket gdict (cancelKey marker c)).length)).sum := by
  induction cevs with
  | nil => rfl
  | cons c rest ih =>
    show (let b := getBucket gdict (cancelKey marker c)
      let r := cancelStage marker gdict rest
      if b.isEmpty then (r.1, r.2.1, r.2.2 + 1)
      else (b ++ r.1, b.length + r.2.1, r.2.2)).2.1 = _
    by_cases hb : (getBucket gdict (cancelKey marker c)).isEmpty
    · simp only [hb, if_pos, List.map_cons, List.sum_cons]
      rw [List.isEmpty_iff.mp hb]
      simpa using ih
    · simp only [hb, if_neg, Bool.false_eq_true, List.map_cons, List.sum_cons]
      simpa using ih

/-- Closed form of `missing_cancel_matches`: the number of cancellation
    events whose derived key has no Google bucket. -/
theorem cancelStage_missing (marker : String)
    (gdict : List (Key × List RawEvent)) (cevs : List RawEvent) :
    (cancelStage marker gdict cevs).2.2 =
      cevs.countP (fun c => (getBucket gdict (cancelKey marker c)).isEmpty) := by
  induction cevs with
  | nil => rfl
  | cons c rest ih =>
    show (let b := getBucket gdict (cancelKey marker c)
      let r := cancelStage marker gdict rest
      if b.isEmpty then (r.1, r.2.1, r.2.2 + 1)
      else (b ++ r.1, b.length + r.2.1, r.2.2)).2.2 = _
    by_cases hb : (getBucket gdict (cancelKey marker c)).isEmpty
    · simp [List.countP_cons, hb, ih]
    · simp [List.countP_cons, hb, ih]

/-- Modelled from the spec: the Target Calendar Store collaborator's
    round trip for a created event (`create_event` then `list_events`).
    The store keeps the instant denoted by the request body — whose
    `dateTime` strings render `startDT`/`stopDT` in the configured zone —
    and the next fetch returns it as a naive wall time in the system
    timezone, i.e. shifted by `sysOff - spOffMin` minutes.  The id
    assigned by the store is unknown to the run that created it. -/
def fetchedOfCreate (sysOff : Int) (c : CreateOp) : RawEvent :=
  { id := none
    title := c.title
    start := DT.shiftMinutes (sysOff - spOffMin) c.startDT
    stop := DT.shiftMinutes (sysOff - spOffMin) c.stopDT }

/-- The effect of one run's mutation calls on the fetched view of the
    target store, in execution order: cancellation deletes (step 4), then
    creates (step 5), then diff deletes (step 6). -/
def applyRun (sysOff : Int) (st : List RawEvent) (r : RunOut) : List RawEvent :=
  applyDeletes RawEvent.id
    (applyCreates (fetchedOfCreate sysOff)
      (applyDeletes RawEvent.id st r.cancelDeletes) r.createOps)
    r.deleteOps

/-- Outcome of one orchestrator invocation: aborted before any mutation
    (`sys.exit(1)` on a failed Teams fetch, an uncaught exception on a
    failed Google fetch) or completed with the run's operations. -/
inductive MainOutcome where
  | aborted
  | completed (r : RunOut)
deriving DecidableEq, Repr

/-- Steps 1-6 of `calendar_sync.main`: `get_teams_events` signals a
    transport failure by returning `None` (modelled `none`), on which
    `main` exits; `get_google_events` re-raises transport errors
    (modelled `Except.error`), which escape `main`; both happen before
    any create or delete call.  A successful fetch that returns zero
    events proceeds into the normal pipeline. -/
def mainModel (marker : String) (sysOff : Int)
    (teamsFetch : Option (List RawEvent))
    (googleFetch : Except Unit (List RawEvent)) : MainOutcome :=
  match teamsFetch with
  | none => .aborted
  | some teams =>
    match googleFetch with
    | .error _ => .aborted
    | .ok google => .completed (runModel marker sysOff teams google)

/-- Total number of events held by an index. -/
theorem flatMap_snd_dictInsert {κ : Type} [DecidableEq κ] {α : Type}
    (d : List (κ × List α)) (k : κ) (e : α) :
    ((dictInsert d k e).flatMap Prod.snd).length = (d.flatMap Prod.snd).length + 1 := by
  induction d with
  | nil => simp [dictInsert]
  | cons hd rest ih =>
    obtain ⟨k', l⟩ := hd
    by_cases h : k' = k
    · subst h
      simp [dictInsert]
      omega
    · simp [dictInsert, h, ih]
      omega

/-- The built index holds exactly the indexed events, counted with
    multiplicity. -/
theorem flatMap_snd_buildDict {κ : Type} [DecidableEq κ] {α : Type}
    (key : α → κ) (evs : List α) :
    ((buildDict key evs).flatMap Prod.snd).length = evs.length := by
  suffices h : ∀ (l : List α) (d : List (κ × List α)),
      ((l.foldl (fun d e => dictInsert d (key e) e) d).flatMap Prod.snd).length
        = (d.flatMap Prod.snd).length + l.length by
    simpa using h evs []
  intro l
  induction l with
  | nil => simp
  | cons e l ih =>
    intro d
    rw [List.foldl_cons, ih, flatMap_snd_dictInsert]
    simp
    omega

/-- Per-operation counters of the mutation stage of `main` under given
    per-call outcomes (`createOk i` / `deleteOk i`: whether the `i`-th
    call of that loop succeeds after its retries). -/
structure ApplyTrace where
  created : Nat
  createCalls : Nat
  deleted : Nat
  deleteSuccesses : Nat
deriving DecidableEq, Repr

/-- The create loop of step 5: `create_google_event` re-raises failures,
    so the first failed call aborts `main` with the counters at that
    point (`Except.error (created so far, calls attempted)`). -/
def runCreateLoop (ok : Nat → Bool) : List CreateOp → Nat → Nat → Except (Nat × Nat) Nat
  | [], _, created => .ok created
  | _ :: cs, p, created =>
    if ok p then runCreateLoop ok cs (p + 1) (created + 1)
    else .error (created, p + 1)

/-- The mutation stage of `main` under per-call outcomes: creates run
    first and abort the whole run at the first failure; the delete loop
    then calls `delete_google_event_by_id` once per operation, ignores
    its Boolean result, and increments `deleted_count` unconditionally. -/
def applyStage (createOk deleteOk : Nat → Bool) (r : RunOut) :
    Except (Nat × Nat) ApplyTrace :=
  match runCreateLoop createOk r.createOps 0 0 with
  | .error e => .error e
  | .ok created =>
    .ok { created := created
          createCalls := r.createOps.length
          deleted := r.deleteOps.length
          deleteSuccesses := (List.range r.deleteOps.length).countP deleteOk }

/-- The summary line logged at the end of `main`: only the four counters,
    with no field for failed operations. -/
structure Summary where
  created : Nat
  deleted : Nat
  canceledRemoved : Nat
  cancelNoMatch : Nat
deriving DecidableEq, Repr

/-- The summary `main` logs for a completed run. -/
def summaryOf (r : RunOut) (t : ApplyTrace) : Summary :=
  ⟨t.created, t.deleted, r.canceledDeletedCount, r.missingCancelMatches⟩

/-- Modelled from the spec: the Target Calendar Store's `list_events`
    collaborator.  `get_google_events` queries `events.list` with
    `timeMin = start` and `timeMax = end + timedelta(days=1)`
    (`extended_end`); the store returns the events intersecting that
    range (end strictly after `timeMin`, start strictly before
    `timeMax`). -/
def fetchGoogle (store : List RawEvent) (startW endW : DT) : List RawEvent :=
  let extended := DT.shiftMinutes (24 * 60) endW
  store.filter (fun e =>
    decide (startW.toSecs < e.stop.toSecs) && decide (e.start.toSecs < extended.toSecs))

/-- A Python exception reaching the handlers of
    `remover_evento_google_by_id`. -/
inductive PyExn where
  | http (status : Nat)
  | other
deriving DecidableEq, Repr

/-- Observable behavior of one call to `remover_evento_google_by_id`:
    what the function returns (or would raise), and whether it reached
    the API delete call. -/
structure DeleteCallResult where
  returned : Except PyExn Bool
  apiCalled : Bool
deriving Repr

/-- The `remover_evento_google_by_id` function of
    `src/google_calendar.py` (imported by `calendar_sync.py` under the
    name `delete_google_event_by_id`): a falsy event id (`None` or the
    empty string) returns `False` with no API call; otherwise the
    `_retry`-wrapped delete call's final outcome is handled — success →
    `True`; `HttpError` 404 → `True` (already gone counts as success);
    other `HttpError` → `False`; any other exception → `False`. -/
def remover_evento_google_by_id (eventId : Option String)
    (callOutcome : Except PyExn Unit) : DeleteCallResult :=
  match eventId with
  | none => ⟨.ok false, false⟩
  | some s =>
    if s = "" then ⟨.ok false, false⟩
    else
      match callOutcome with
      | .ok _ => ⟨.ok true, true⟩
      | .error (.http status) =>
        if status = 404 then ⟨.ok true, true⟩ else ⟨.ok false, true⟩
      | .error .other => ⟨.ok false, true⟩

/-- C1: convergence of the diff stage — for every source index and
    target index, after applying all operations emitted by the diff stage
    to the target, every canonical key's target bucket size equals its
    source bucket size (absent keys counting as 0).  The target is viewed
    as the multiset of (canonical key, store id) pairs of the fetched
    events; ids are populated and unique, as the store guarantees. -/
theorem C1_diff_convergence (marker : String) (sysOff : Int)
    (teams google : List RawEvent)
    (hsome : ∀ g ∈ google, (g.id).isSome = true)
    (hnodup : (google.map RawEvent.id).Nodup) (k : Key) :
    ((applyDeletes Prod.snd
        (applyCreates itemOfCreate (google.map (itemOfGoogle sysOff))
          (runModel marker sysOff teams google).createOps)
        (runModel marker sysOff teams google).deleteOps).countP
      (fun x => decide (x.1 = k)))
      = (getBucket (teamsDict marker teams) k).length := by
  rw [run_apply_countP Prod.fst Prod.snd itemOfCreate (itemOfGoogle sysOff)
    marker sysOff teams google (fun g => rfl) (fun g => rfl)
    (fun c _ => rfl) (fun c => rfl) hsome hnodup k]
  simp only [teamsDict, getBucket_buildDict, List.countP_eq_length_filter]

/-- Concrete instance of C1: one Teams event, one unrelated Google
    event; after the diff operations the count of the Teams key is its
    source bucket size. -/
def c1Teams : List RawEvent :=
  [{ id := none, title := "A",
     start := ⟨2024, 1, 2, 10, 0, 0, 0⟩, stop := ⟨2024, 1, 2, 11, 0, 0, 0⟩ }]

/-- Target store contents for the C1 witness. -/
def c1Google : List RawEvent :=
  [{ id := some "g1", title := "B",
     start := ⟨2024, 1, 3, 10, 0, 0, 0⟩, stop := ⟨2024, 1, 3, 11, 0, 0, 0⟩ }]

/-- Witness for C1 at a concrete input. -/
theorem C1_diff_convergence_witness :
    ((∀ g ∈ c1Google, (g.id).isSome = true) ∧ (c1Google.map RawEvent.id).Nodup)
    ∧ ((applyDeletes Prod.snd
        (applyCreates itemOfCreate (c1Google.map (itemOfGoogle (-180)))
          (runModel "Cancelado:" (-180) c1Teams c1Google).createOps)
        (runModel "Cancelado:" (-180) c1Teams c1Google).deleteOps).countP
      (fun x => decide (x.1 = ("A", "2024-01-02T10:00:00", "2024-01-02T11:00:00"))))
      = (getBucket (teamsDict "Cancelado:" c1Teams)
          ("A", "2024-01-02T10:00:00", "2024-01-02T11:00:00")).length :=
  ⟨⟨by decide, by decide⟩,
    C1_diff_convergence "Cancelado:" (-180) c1Teams c1Google (by decide) (by decide) _⟩

/-- C2: exact operation counts and selection in the diff stage — for
    every canonical key with `s` source-bucket and `t` target-bucket
    events, the creates emitted for that key are `s - t` copies of the
    first source bucket entry (none when `s ≤ t`), and the deletes
    emitted for that key are the first `t - s` entries of the target
    bucket in indexed order (none when `t ≤ s`). -/
theorem C2_diff_op_shape (marker : String) (sysOff : Int)
    (teams google : List RawEvent) (k : Key) :
    ((runModel marker sysOff teams google).createOps.filter
        (fun c => decide (createKey c = k))
      = (match (getBucket (teamsDict marker teams) k).head? with
         | some tmpl =>
           List.replicate ((getBucket (teamsDict marker teams) k).length
             - (getBucket (googleDict sysOff google) k).length) (mkCreateOp tmpl)
         | none => []))
    ∧ ((runModel marker sysOff teams google).deleteOps.filter
        (fun x => decide (normGoogle sysOff x = k))
      = (getBucket (googleDict sysOff google) k).take
          ((getBucket (googleDict sysOff google) k).length
            - (getBucket (teamsDict marker teams) k).length)) := by
  constructor
  · rw [createOps_filter_eq, createOpsForKey_eq_replicate]
  · exact deleteOps_filter_eq marker sysOff teams google k

/-- C7: a transport-level fetch failure aborts the run before any
    mutation, and is never treated like a successful fetch of zero
    events: the latter proceeds through the normal pipeline (with an
    empty source feed it deletes every fetched target event rather than
    aborting). -/
theorem C7_transport_failure_aborts (marker : String) (sysOff : Int) :
    (∀ gf, mainModel marker sysOff none gf = .aborted)
    ∧ (∀ teams e, mainModel marker sysOff (some teams) (.error e) = .aborted)
    ∧ (∀ google, mainModel marker sysOff (some []) (.ok google)
        = .completed (runModel marker sysOff [] google))
    ∧ (∀ google, (runModel marker sysOff [] google).created = 0
        ∧ (runModel marker sysOff [] google).deleted = google.length)
    ∧ (∀ r, MainOutcome.completed r ≠ MainOutcome.aborted) := by
  refine ⟨fun _ => rfl, fun _ _ => rfl, fun _ => rfl, fun google => ⟨rfl, ?_⟩,
    fun r h => MainOutcome.noConfusion h⟩
  show ((googleDict sysOff google).flatMap
    (deleteOpsForKey (teamsDict marker []))).length = google.length
  have hfun : deleteOpsForKey (teamsDict marker []) = Prod.snd := by
    funext e
    obtain ⟨k, gl⟩ := e
    rw [deleteOpsForKey_eq_take]
    show gl.take (gl.length - (getBucket [] k).length) = gl
    simp [getBucket]
  rw [hfun, googleDict, flatMap_snd_buildDict]

/-- C10: `delete_google_event_by_id` is total over failures — it always
    returns a Boolean (no exception propagates), and a missing (`None`)
    or empty event id yields `False` without any API call. -/
theorem C10_delete_total_over_failures :
    (∀ o, (remover_evento_google_by_id none o).returned = .ok false
      ∧ (remover_evento_google_by_id none o).apiCalled = false)
    ∧ (∀ o, (remover_evento_google_by_id (some "") o).returned = .ok false
      ∧ (remover_evento_google_by_id (some "") o).apiCalled = false)
    ∧ (∀ eid o, ∃ b, (remover_evento_google_by_id eid o).returned = .ok b) := by
  refine ⟨fun o => ⟨rfl, rfl⟩, fun o => ⟨rfl, rfl⟩, fun eid o => ?_⟩
  cases eid with
  | none => exact ⟨false, rfl⟩
  | some s =>
    by_cases hs : s = ""
    · subst hs
      exact ⟨false, rfl⟩
    · cases o with
      | ok u => exact ⟨true, by simp [remover_evento_google_by_id, hs]⟩
      | error e =>
        cases e with
        | http status =>
          by_cases h4 : status = 404
          · exact ⟨true, by simp [remover_evento_google_by_id, hs, h4]⟩
          · exact ⟨false, by simp [remover_evento_google_by_id, hs, h4]⟩
        | other => exact ⟨false, by simp [remover_evento_google_by_id, hs]⟩

/-- Concatenation of empty per-entry lists. -/
theorem flatMap_eq_nil_of {α β : Type} {l : List α} {f : α → List β}
    (h : ∀ x ∈ l, f x = []) : l.flatMap f = [] := by
  induction l with
  | nil => rfl
  | cons x l ih =>
    rw [List.flatMap_cons, h x (List.mem_cons_self _ _), List.nil_append]
    exact ih (fun y hy => h y (List.mem_cons_of_mem _ hy))

/-- Truncation of sub-second precision is idempotent. -/
theorem DT.trunc_trunc (d : DT) : d.trunc.trunc = d.trunc := rfl

/-- Round trip of a created event through the store at a system timezone
    equal to the configured zone: the event fetched back normalizes to
    the key of the create request. -/
theorem fetchedOfCreate_key (tmpl : RawEvent) :
    normGoogle spOffMin (fetchedOfCreate spOffMin (mkCreateOp tmpl))
      = createKey (mkCreateOp tmpl) := by
  show (_, (googleLocal spOffMin (DT.shiftMinutes (spOffMin - spOffMin) (localNaive tmpl.start))).iso,
      (googleLocal spOffMin (DT.shiftMinutes (spOffMin - spOffMin) (localNaive tmpl.stop))).iso) = _
  have hz : spOffMin - spOffMin = 0 := by omega
  rw [hz]
  show (_, (googleLocal spOffMin (localNaive tmpl.start)).iso,
      (googleLocal spOffMin (localNaive tmpl.stop)).iso) = _
  have hg : ∀ d : DT, googleLocal spOffMin d.trunc = d.trunc := by
    intro d
    show ((astimezoneLocal spOffMin ⟨d.trunc.trunc, none⟩).wall).trunc = d.trunc
    rw [DT.trunc_trunc]
    show (DT.shiftMinutes (spOffMin - spOffMin) d.trunc).trunc = d.trunc
    rw [hz]
    rfl
  have hs : ∀ d : DT, googleLocal spOffMin (localNaive d) = localNaive d := fun d => hg _
  rw [hs tmpl.start, hs tmpl.stop]
  rfl

/-- Teams events of the C3 counterexample: a meeting together with its
    cancellation pair, as a Teams feed renders a cancelled slot. -/
def c3Teams : List RawEvent :=
  [{ id := none, title := "Standup",
     start := ⟨2024, 1, 1, 9, 0, 0, 0⟩, stop := ⟨2024, 1, 1, 9, 30, 0, 0⟩ },
   { id := none, title := "Cancelado: Standup",
     start := ⟨2024, 1, 1, 9, 0, 0, 0⟩, stop := ⟨2024, 1, 1, 9, 30, 0, 0⟩ }]

/-- Google store of the C3 counterexample: the meeting exists in the
    target. -/
def c3Google : List RawEvent :=
  [{ id := some "abc", title := "Standup",
     start := ⟨2024, 1, 1, 9, 0, 0, 0⟩, stop := ⟨2024, 1, 1, 9, 30, 0, 0⟩ }]

/-- Counterexample to C3 as stated: with the source feed unchanged and
    the target changed only by the first run's own operations (the
    cancellation delete empties the store), the second run performs one
    Create operation, not zero — the cancellation stage deleted the
    target event while the diff stage still saw it in the index, so the
    next run recreates it. -/
theorem C3_counterexample :
    applyRun (-180) c3Google
        (runModel "Cancelado:" (-180) c3Teams c3Google) = []
    ∧ (runModel "Cancelado:" (-180) c3Teams
        (applyRun (-180) c3Google
          (runModel "Cancelado:" (-180) c3Teams c3Google))).created = 1 :=
  ⟨by decide, by decide⟩

/-- C3 (amended): running the orchestrator twice in immediate succession
    — source feed unchanged, target store changed only by the first
    run's own operations, store ids populated and unique, environment
    timezone equal to the configured zone — performs zero Create and
    zero Delete operations on the second run, provided the source feed
    contains no cancellation-marked events. -/
theorem C3_idempotent_without_cancellations (marker : String)
    (teams google : List RawEvent)
    (hnc : ∀ ev ∈ teams, pyStartsWith ev.title marker = false)
    (hsome : ∀ g ∈ google, (g.id).isSome = true)
    (hnodup : (google.map RawEvent.id).Nodup) :
    (runModel marker spOffMin teams
        (applyRun spOffMin google (runModel marker spOffMin teams google))).createOps = []
    ∧ (runModel marker spOffMin teams
        (applyRun spOffMin google (runModel marker spOffMin teams google))).deleteOps = []
    ∧ (runModel marker spOffMin teams
        (applyRun spOffMin google (runModel marker spOffMin teams google))).cancelDeletes = [] := by
  have hcanc : canceladosOf marker teams = [] := by
    rw [canceladosOf, List.filter_eq_nil_iff]
    intro ev hev h
    rw [hnc ev hev] at h
    exact Bool.false_ne_true h
  have hreg : regularOf marker teams = teams := by
    rw [regularOf, List.filter_eq_self]
    intro ev hev
    rw [hnc ev hev]
    rfl
  have hC1 : (runModel marker spOffMin teams google).cancelDeletes = [] := by
    show (cancelStage marker (googleDict spOffMin google)
      (canceladosOf marker teams)).1 = []
    rw [hcanc]
    rfl
  have happ : applyRun spOffMin google (runModel marker spOffMin teams google)
      = applyDeletes RawEvent.id
          (applyCreates (fetchedOfCreate spOffMin) google
            (runModel marker spOffMin teams google).createOps)
          (runModel marker spOffMin teams google).deleteOps := by
    rw [applyRun, hC1]
    rfl
  have hnewK : ∀ c ∈ (runModel marker spOffMin teams google).createOps,
      normGoogle spOffMin (fetchedOfCreate spOffMin c) = createKey c := by
    intro c hc
    obtain ⟨tmpl, _, hctmpl, _⟩ := createOps_key hc
    rw [hctmpl]
    exact fetchedOfCreate_key tmpl
  have hcount : ∀ k : Key,
      (applyRun spOffMin google (runModel marker spOffMin teams google)).countP
          (fun g => decide (normGoogle spOffMin g = k))
        = teams.countP (fun e => decide (normTeams e = k)) := by
    intro k
    have h := run_apply_countP (normGoogle spOffMin) RawEvent.id
      (fetchedOfCreate spOffMin) id marker spOffMin teams google
      (fun g => rfl) (fun g => rfl) hnewK (fun c => rfl) hsome hnodup k
    rw [List.map_id] at h
    rw [happ, h, hreg]
  have hkeylen : ∀ k : Key,
      (getBucket (googleDict spOffMin
          (applyRun spOffMin google (runModel marker spOffMin teams google))) k).length
        = (getBucket (teamsDict marker teams) k).length := by
    intro k
    rw [googleDict, getBucket_buildDict, ← List.countP_eq_length_filter, hcount k,
      teamsDict, getBucket_buildDict, ← List.countP_eq_length_filter, hreg]
  refine ⟨?_, ?_, ?_⟩
  · show (teamsDict marker teams).flatMap
      (createOpsForKey (googleDict spOffMin
        (applyRun spOffMin google (runModel marker spOffMin teams google)))) = []
    apply flatMap_eq_nil_of
    intro e he
    obtain ⟨k, tl⟩ := e
    apply createOpsForKey_eq_nil
    rw [hkeylen k]
    rw [getBucket_of_mem he (nodup_keysOf_buildDict _ _)]
  · show (googleDict spOffMin
        (applyRun spOffMin google (runModel marker spOffMin teams google))).flatMap
      (deleteOpsForKey (teamsDict marker teams)) = []
    apply flatMap_eq_nil_of
    intro e he
    obtain ⟨k, gl⟩ := e
    apply deleteOpsForKey_eq_nil
    rw [← hkeylen k]
    rw [getBucket_of_mem he (nodup_keysOf_buildDict _ _)]
  · show (cancelStage marker _ (canceladosOf marker teams)).1 = []
    rw [hcanc]
    rfl

/-- Witness for amended C3 at a concrete input: one source meeting, one
    unrelated target event; the first run creates the meeting and deletes
    the orphan, the second run does nothing. -/
theorem C3_idempotent_without_cancellations_witness :
    ((∀ ev ∈ c1Teams, pyStartsWith ev.title "Cancelado:" = false)
      ∧ (∀ g ∈ c1Google, (g.id).isSome = true)
      ∧ (c1Google.map RawEvent.id).Nodup)
    ∧ ((runModel "Cancelado:" spOffMin c1Teams
        (applyRun spOffMin c1Google (runModel "Cancelado:" spOffMin c1Teams c1Google))).createOps = []
      ∧ (runModel "Cancelado:" spOffMin c1Teams
        (applyRun spOffMin c1Google (runModel "Cancelado:" spOffMin c1Teams c1Google))).deleteOps = []
      ∧ (runModel "Cancelado:" spOffMin c1Teams
        (applyRun spOffMin c1Google (runModel "Cancelado:" spOffMin c1Teams c1Google))).cancelDeletes = []) :=
  ⟨⟨by decide, by decide, by decide⟩,
    C3_idempotent_without_cancellations "Cancelado:" c1Teams c1Google
      (by decide) (by decide) (by decide)⟩

/-- Events of a built bucket belong to the indexed list and carry the
    bucket's key. -/
theorem mem_getBucket_buildDict {α κ : Type} [DecidableEq κ] {key : α → κ}
    {evs : List α} {k : κ} : ∀ x ∈ getBucket (buildDict key evs) k, x ∈ evs ∧ key x = k := by
  rw [getBucket_buildDict]
  intro x hx
  obtain ⟨h1, h2⟩ := List.mem_filter.mp hx
  exact ⟨h1, of_decide_eq_true h2⟩

/-- Every cancellation-stage delete targets a fetched Google event. -/
theorem cancelDeletes_mem (marker : String) (sysOff : Int)
    (teams google : List RawEvent) :
    ∀ x ∈ (runModel marker sysOff teams google).cancelDeletes, x ∈ google := by
  intro x hx
  have hx' : x ∈ (cancelStage marker (googleDict sysOff google)
      (canceladosOf marker teams)).1 := hx
  rw [cancelStage_deletes] at hx'
  obtain ⟨c, _, hxc⟩ := List.mem_flatMap.mp hx'
  exact (mem_getBucket_buildDict x hxc).1

/-- The UTC instant denoted by an ISO timestamp string carrying an
    explicit offset (a faithful reading of the timestamp; the repository
    code never computes this — it discards the offset). -/
def isoInstant (s : String) : Option Int :=
  match fromisoformat s with
  | some (d, some off) => some (d.toSecs - 60 * off)
  | _ => none

/-- Counterexample to C4 as stated: two inputs with equal trimmed titles
    whose timestamps denote the same instants — `12:00+00:00` versus the
    `09:00-03:00` rendering — normalize to different canonical keys,
    because `parse_datetime` cuts the offset off without converting. -/
theorem C4_counterexample :
    isoInstant "2024-01-01T12:00:00+00:00" = isoInstant "2024-01-01T09:00:00-03:00"
    ∧ (isoInstant "2024-01-01T12:00:00+00:00").isSome = true
    ∧ isoInstant "2024-01-01T13:00:00+00:00" = isoInstant "2024-01-01T10:00:00-03:00"
    ∧ (isoInstant "2024-01-01T13:00:00+00:00").isSome = true
    ∧ normalize_event 0 "Standup"
        (.str "2024-01-01T12:00:00+00:00") (.str "2024-01-01T13:00:00+00:00") "teams"
      = some ("Standup", "2024-01-01T12:00:00", "2024-01-01T13:00:00")
    ∧ normalize_event 0 "Standup"
        (.str "2024-01-01T09:00:00-03:00") (.str "2024-01-01T10:00:00-03:00") "teams"
      = some ("Standup", "2024-01-01T09:00:00", "2024-01-01T10:00:00")
    ∧ normalize_event 0 "Standup"
        (.str "2024-01-01T12:00:00+00:00") (.str "2024-01-01T13:00:00+00:00") "teams"
      ≠ normalize_event 0 "Standup"
        (.str "2024-01-01T09:00:00-03:00") (.str "2024-01-01T10:00:00-03:00") "teams" := by
  refine ⟨by decide, by decide, by decide, by decide, by decide, by decide, by decide⟩

/-- C4 (amended): `normalize_event` is a pure function of the trimmed
    title and the offset-stripped wall-clock timestamps — two inputs with
    equal trimmed titles whose timestamps parse to the same wall times
    (the offset being discarded, not converted) produce the identical
    canonical key, independent of wall-clock time and environment. -/
theorem C4_wall_clock_determinism (sysOff : Int) (t1 t2 : String)
    (s1 s2 e1 e2 : PyVal) (src : String)
    (ht : pyStrip t1 = pyStrip t2)
    (hs : parse_datetime s1 = parse_datetime s2)
    (he : parse_datetime e1 = parse_datetime e2) :
    normalize_event sysOff t1 s1 e1 src = normalize_event sysOff t2 s2 e2 src := by
  unfold normalize_event
  rw [ht, hs, he]

/-- Witness for amended C4: an untrimmed title and a `+00:00`-suffixed
    timestamp normalize exactly like the trimmed title with the bare wall
    time (the suffix is dropped). -/
theorem C4_wall_clock_determinism_witness :
    (pyStrip " Standup " = pyStrip "Standup"
      ∧ parse_datetime (.str "2024-01-01T12:00:00+00:00")
        = parse_datetime (.str "2024-01-01T12:00:00")
      ∧ parse_datetime (.str "2024-01-01T13:00:00+00:00")
        = parse_datetime (.str "2024-01-01T13:00:00"))
    ∧ normalize_event 0 " Standup "
        (.str "2024-01-01T12:00:00+00:00") (.str "2024-01-01T13:00:00+00:00") "teams"
      = normalize_event 0 "Standup"
        (.str "2024-01-01T12:00:00") (.str "2024-01-01T13:00:00") "teams" :=
  ⟨⟨by decide, by decide, by decide⟩,
    C4_wall_clock_determinism 0 " Standup " "Standup" _ _ _ _ "teams"
      (by decide) (by decide) (by decide)⟩

/-- Teams feed of the C5 counterexample: only the cancellation marker
    event; the cancelled meeting itself is no longer listed. -/
def c5Teams : List RawEvent :=
  [{ id := none, title := "Cancelado: Standup",
     start := ⟨2024, 1, 1, 9, 0, 0, 0⟩, stop := ⟨2024, 1, 1, 9, 30, 0, 0⟩ }]

/-- Google store of the C5 counterexample: the meeting still exists. -/
def c5Google : List RawEvent :=
  [{ id := some "abc", title := "Standup",
     start := ⟨2024, 1, 1, 9, 0, 0, 0⟩, stop := ⟨2024, 1, 1, 9, 30, 0, 0⟩ }]

/-- Counterexample to C5 as stated: the cancellation-deleted entry is
    not removed from the in-memory target index, so the diff stage
    (which sees one surplus Google event for a key with zero Teams
    events) deletes the very same target event a second time: the id
    `abc` is the subject of two Delete operations in a single run. -/
theorem C5_counterexample :
    ((runModel "Cancelado:" (-180) c5Teams c5Google).cancelDeletes
        ++ (runModel "Cancelado:" (-180) c5Teams c5Google).deleteOps).map RawEvent.id
      = [some "abc", some "abc"] := by decide

/-- C5 (amended): the deleted entries are not removed from the in-memory
    target index; still, no target event is the subject of more than one
    Delete operation in a run provided the cancellation events derive
    pairwise-distinct keys and each derived key has at least as many
    source-bucket as target-bucket events (so the diff stage emits no
    surplus delete for a cancelled key). -/
theorem C5_no_double_delete (marker : String) (sysOff : Int)
    (teams google : List RawEvent)
    (hnodup : (google.map RawEvent.id).Nodup)
    (hckeys : ((canceladosOf marker teams).map (cancelKey marker)).Nodup)
    (hcnt : ∀ c ∈ canceladosOf marker teams,
      (getBucket (googleDict sysOff google) (cancelKey marker c)).length
        ≤ (getBucket (teamsDict marker teams) (cancelKey marker c)).length) :
    (((runModel marker sysOff teams google).cancelDeletes
        ++ (runModel marker sysOff teams google).deleteOps).map RawEvent.id).Nodup := by
  have hgnd : google.Nodup := hnodup.of_map
  have hcd : (runModel marker sysOff teams google).cancelDeletes
      = (canceladosOf marker teams).flatMap
          (fun c => getBucket (googleDict sysOff google) (cancelKey marker c)) :=
    cancelStage_deletes marker _ _
  -- the cancellation deletes are pairwise distinct
  have hnd1 : (runModel marker sysOff teams google).cancelDeletes.Nodup := by
    rw [hcd, List.nodup_flatMap]
    constructor
    · intro c _
      rw [googleDict, getBucket_buildDict]
      exact hgnd.filter _
    · have hp := List.pairwise_map.mp hckeys
      refine hp.imp ?_
      intro a b hab x hxa hxb
      have h1 := (mem_getBucket_buildDict x hxa).2
      have h2 := (mem_getBucket_buildDict x hxb).2
      exact hab (h1 ▸ h2 ▸ rfl)
  -- the diff deletes are pairwise distinct
  have hnd2 : (runModel marker sysOff teams google).deleteOps.Nodup := by
    show ((googleDict sysOff google).flatMap
      (deleteOpsForKey (teamsDict marker teams))).Nodup
    rw [List.nodup_flatMap]
    constructor
    · intro e he
      have he2 : e.2.Nodup := by
        rw [mem_buildDict_elim he]
        exact hgnd.filter _
      obtain ⟨k, gl⟩ := e
      rw [deleteOpsForKey_eq_take]
      exact he2.sublist (List.take_sublist _ _)
    · have hknd : ((googleDict sysOff google).map Prod.fst).Nodup :=
        nodup_keysOf_buildDict _ _
      have hp := List.pairwise_map.mp hknd
      refine List.Pairwise.imp_of_mem ?_ hp
      intro a b ha hb hab x hxa hxb
      have h1 : normGoogle sysOff x = a.1 := by
        have hm : x ∈ a.2 := deleteOpsForKey_subset _ a x hxa
        have := mem_buildDict_elim ha ▸ hm
        exact of_decide_eq_true (List.mem_filter.mp this).2
      have h2 : normGoogle sysOff x = b.1 := by
        have hm : x ∈ b.2 := deleteOpsForKey_subset _ b x hxb
        have := mem_buildDict_elim hb ▸ hm
        exact of_decide_eq_true (List.mem_filter.mp this).2
      exact hab (h1 ▸ h2 ▸ rfl)
  -- a cancellation delete and a diff delete never share their target
  have hdisj : List.Disjoint (runModel marker sysOff teams google).cancelDeletes
      (runModel marker sysOff teams google).deleteOps := by
    intro x hxc hxd
    rw [hcd] at hxc
    obtain ⟨c, hcmem, hxbucket⟩ := List.mem_flatMap.mp hxc
    have hxkey : normGoogle sysOff x = cancelKey marker c :=
      (mem_getBucket_buildDict x hxbucket).2
    have hxf : x ∈ (runModel marker sysOff teams google).deleteOps.filter
        (fun y => decide (normGoogle sysOff y = cancelKey marker c)) :=
      List.mem_filter.mpr ⟨hxd, decide_eq_true hxkey⟩
    rw [deleteOps_filter_eq, Nat.sub_eq_zero_of_le (hcnt c hcmem), List.take_zero] at hxf
    exact absurd hxf (List.not_mem_nil x)
  -- distinct events carry distinct ids, so the id list has no duplicate
  refine List.Nodup.map_on ?_ (hnd1.append hnd2 hdisj)
  intro x hx y hy hxy
  have hxg : x ∈ google := by
    rcases List.mem_append.mp hx with h | h
    · exact cancelDeletes_mem marker sysOff teams google x h
    · exact deleteOps_mem marker sysOff teams google x h
  have hyg : y ∈ google := by
    rcases List.mem_append.mp hy with h | h
    · exact cancelDeletes_mem marker sysOff teams google y h
    · exact deleteOps_mem marker sysOff teams google y h
  exact List.inj_on_of_nodup_map hnodup hxg hyg hxy

/-- Witness for amended C5: a matched cancellation whose key the source
    still lists once — the single delete comes from the cancellation
    stage only. -/
theorem C5_no_double_delete_witness :
    ((c3Google.map RawEvent.id).Nodup
      ∧ ((canceladosOf "Cancelado:" c3Teams).map (cancelKey "Cancelado:")).Nodup
      ∧ (∀ c ∈ canceladosOf "Cancelado:" c3Teams,
          (getBucket (googleDict (-180) c3Google) (cancelKey "Cancelado:" c)).length
            ≤ (getBucket (teamsDict "Cancelado:" c3Teams) (cancelKey "Cancelado:" c)).length))
    ∧ (((runModel "Cancelado:" (-180) c3Teams c3Google).cancelDeletes
        ++ (runModel "Cancelado:" (-180) c3Teams c3Google).deleteOps).map RawEvent.id).Nodup :=
  ⟨⟨by decide, by decide, by decide⟩,
    C5_no_double_delete "Cancelado:" (-180) c3Teams c3Google
      (by decide) (by decide) (by decide)⟩

/-- The key the spec's words prescribe for a cancellation event: strip
    the marker prefix (one leading occurrence), trim, and pair with the
    event's own local-normalized start/end. -/
def specStripKey (marker : String) (ev : RawEvent) : Key :=
  (pyStrip (if pyStartsWith ev.title marker then ev.title.drop marker.length else ev.title),
    (localNaive ev.start).iso, (localNaive ev.stop).iso)

/-- Cancellation event of the C6 counterexample: its title contains the
    marker twice. -/
def c6Cancel : RawEvent :=
  { id := none, title := "Cancelado: Reuniao Cancelado: extra",
    start := ⟨2024, 1, 1, 9, 0, 0, 0⟩, stop := ⟨2024, 1, 1, 10, 0, 0, 0⟩ }

/-- Google store of the C6 counterexample: it holds exactly the event
    named by the prefix-stripped title at the same times. -/
def c6Google : List RawEvent :=
  [{ id := some "g6", title := "Reuniao Cancelado: extra",
     start := ⟨2024, 1, 1, 9, 0, 0, 0⟩, stop := ⟨2024, 1, 1, 10, 0, 0, 0⟩ }]

/-- Counterexample to C6 as stated: the code derives the original key
    with `str.replace`, which removes *every* occurrence of the marker,
    not just the prefix.  For a title containing the marker twice the
    prefix-stripped key is present in the target index, yet the run
    emits no Delete, and counts the cancellation as unmatched. -/
theorem C6_counterexample :
    getBucket (googleDict (-180) c6Google) (specStripKey "Cancelado:" c6Cancel) ≠ []
    ∧ cancelKey "Cancelado:" c6Cancel ≠ specStripKey "Cancelado:" c6Cancel
    ∧ (runModel "Cancelado:" (-180) [c6Cancel] c6Google).cancelDeletes = []
    ∧ (runModel "Cancelado:" (-180) [c6Cancel] c6Google).canceledDeletedCount = 0
    ∧ (runModel "Cancelado:" (-180) [c6Cancel] c6Google).missingCancelMatches = 1 := by
  refine ⟨by decide, by decide, by decide, by decide, by decide⟩

/-- C6 (amended): the cancellation resolver contract with the key formed
    by removing *every* occurrence of the marker from the title
    (`str.replace`) and trimming — which coincides with prefix-stripping
    when the marker occurs once.  For each cancellation event whose
    derived key has a bucket in the target index, a Delete is emitted for
    every event of that bucket and the matched counter grows by the
    bucket size; otherwise the unmatched counter grows by one and no
    operation is emitted; no exception is raised (the stage is a total
    function). -/
theorem C6_cancellation_resolver (marker : String) (sysOff : Int)
    (teams google : List RawEvent) :
    (runModel marker sysOff teams google).cancelDeletes
      = (canceladosOf marker teams).flatMap
          (fun c => getBucket (googleDict sysOff google) (cancelKey marker c))
    ∧ (runModel marker sysOff teams google).canceledDeletedCount
      = ((canceladosOf marker teams).map
          (fun c => (getBucket (googleDict sysOff google) (cancelKey marker c)).length)).sum
    ∧ (runModel marker sysOff teams google).missingCancelMatches
      = (canceladosOf marker teams).countP
          (fun c => (getBucket (googleDict sysOff google) (cancelKey marker c)).isEmpty) :=
  ⟨cancelStage_deletes marker _ _, cancelStage_count marker _ _,
    cancelStage_missing marker _ _⟩

/-- A run with two pending creates and one pending delete, used to
    exercise the mutation stage under call failures. -/
def c8Run : RunOut :=
  { cancelDeletes := []
    canceledDeletedCount := 0
    missingCancelMatches := 0
    createOps :=
      [mkCreateOp { id := none, title := "A", start := ⟨2024, 1, 2, 10, 0, 0, 0⟩,
                    stop := ⟨2024, 1, 2, 11, 0, 0, 0⟩ },
       mkCreateOp { id := none, title := "B", start := ⟨2024, 1, 3, 10, 0, 0, 0⟩,
                    stop := ⟨2024, 1, 3, 11, 0, 0, 0⟩ }]
    deleteOps :=
      [{ id := some "g1", title := "C",
         start := ⟨2024, 1, 4, 10, 0, 0, 0⟩, stop := ⟨2024, 1, 4, 11, 0, 0, 0⟩ }] }

/-- Counterexample to C8 as stated: (i) a create call that fails after
    retries raises out of `main` — the run aborts with the second of the
    two create operations never attempted, instead of continuing; (ii) a
    delete call that fails after retries changes nothing observable in
    the summary: the run with a failing delete produces the identical
    summary as the run with a succeeding one (`deleted_count` counts
    attempts), so no failure count is included in the summary. -/
theorem C8_counterexample :
    applyStage (fun i => decide (i ≠ 0)) (fun _ => true) c8Run = .error (0, 1)
    ∧ c8Run.createOps.length = 2
    ∧ applyStage (fun _ => true) (fun _ => true) c8Run
      = .ok { created := 2, createCalls := 2, deleted := 1, deleteSuccesses := 1 }
    ∧ applyStage (fun _ => true) (fun _ => false) c8Run
      = .ok { created := 2, createCalls := 2, deleted := 1, deleteSuccesses := 0 }
    ∧ summaryOf c8Run { created := 2, createCalls := 2, deleted := 1, deleteSuccesses := 1 }
      = summaryOf c8Run { created := 2, createCalls := 2, deleted := 1, deleteSuccesses := 0 }
    ∧ (1 : Nat) ≠ 0 :=
  ⟨rfl, rfl, rfl, rfl, rfl, by decide⟩

/-- The create loop succeeds completely when every call succeeds. -/
theorem runCreateLoop_all_ok (cs : List CreateOp) (p created : Nat) :
    runCreateLoop (fun _ => true) cs p created = .ok (created + cs.length) := by
  induction cs generalizing p created with
  | nil => simp [runCreateLoop]
  | cons c cs ih =>
    rw [List.length_cons]
    show runCreateLoop (fun _ => true) cs (p + 1) (created + 1) = _
    rw [ih]
    congr 1
    omega

/-- C8 (amended): a failed delete call is reported per-operation but the
    loop continues — every delete operation is attempted, the run
    completes, and `deleted_count` equals the number of attempts
    regardless of which delete calls succeeded; the emitted summary
    carries no failure counts — it is identical for any two outcomes of
    the delete calls.  (A failed create call, by contrast, aborts the
    run; see the counterexample.) -/
theorem C8_delete_failures_continue (r : RunOut) (deleteOk : Nat → Bool) :
    applyStage (fun _ => true) deleteOk r
      = .ok { created := r.createOps.length
              createCalls := r.createOps.length
              deleted := r.deleteOps.length
              deleteSuccesses := (List.range r.deleteOps.length).countP deleteOk }
    ∧ (∀ d1 d2 : Nat → Bool, ∀ t1 t2 : ApplyTrace,
        applyStage (fun _ => true) d1 r = .ok t1 →
        applyStage (fun _ => true) d2 r = .ok t2 →
        summaryOf r t1 = summaryOf r t2) := by
  have hloop := runCreateLoop_all_ok r.createOps 0 0
  constructor
  · rw [applyStage, hloop]
    simp
  · intro d1 d2 t1 t2 h1 h2
    rw [applyStage, hloop] at h1 h2
    simp only [Except.ok.injEq] at h1 h2
    rw [summaryOf, summaryOf, ← h1, ← h2]

/-- Witness for amended C8 at the concrete run with all deletes
    failing. -/
theorem C8_delete_failures_continue_witness :
    applyStage (fun _ => true) (fun _ => false) c8Run
      = .ok { created := c8Run.createOps.length
              createCalls := c8Run.createOps.length
              deleted := c8Run.deleteOps.length
              deleteSuccesses := (List.range c8Run.deleteOps.length).countP (fun _ => false) }
    ∧ summaryOf c8Run { created := 2, createCalls := 2, deleted := 1, deleteSuccesses := 1 }
      = summaryOf c8Run { created := 2, createCalls := 2, deleted := 1, deleteSuccesses := 0 } :=
  ⟨(C8_delete_failures_continue c8Run (fun _ => false)).1,
    (C8_delete_failures_continue c8Run (fun _ => true)).2
      (fun _ => true) (fun _ => false) _ _ rfl rfl⟩

/-- Target-store event of the C9 counterexample: it lies strictly after
    the configured sync window but within the one-day fetch extension. -/
def c9Ev : RawEvent :=
  { id := some "z1", title := "Orphan",
    start := ⟨2024, 1, 12, 9, 0, 0, 0⟩, stop := ⟨2024, 1, 12, 10, 0, 0, 0⟩ }

/-- Configured window start of the C9 counterexample. -/
def c9Start : DT := ⟨2024, 1, 1, 7, 0, 0, 0⟩

/-- Configured window end of the C9 counterexample. -/
def c9End : DT := ⟨2024, 1, 11, 18, 0, 0, 0⟩

/-- Counterexample to C9 as stated: `get_google_events` queries up to
    `end + timedelta(days=1)`, so a target event lying entirely outside
    the configured window (it starts after the window end) is fetched
    into the target index and, with an empty source feed, becomes the
    subject of a Delete operation. -/
theorem C9_counterexample :
    c9End.toSecs < c9Ev.start.toSecs
    ∧ fetchGoogle [c9Ev] c9Start c9End = [c9Ev]
    ∧ (runModel "Cancelado:" (-180) [] (fetchGoogle [c9Ev] c9Start c9End)).deleteOps
      = [c9Ev] := by
  refine ⟨by decide, by decide, by decide⟩

/-- C9 (amended): deletions are confined to the fetched range — every
    event a run deletes (through the cancellation stage or the diff
    stage) is a stored event intersecting `[start, end + 1 day]`, the
    window actually queried by `get_google_events`; events outside that
    extended range are neither fetched nor deleted. -/
theorem C9_deletes_within_extended_window (marker : String) (sysOff : Int)
    (teams store : List RawEvent) (startW endW : DT) :
    ∀ x ∈ (runModel marker sysOff teams (fetchGoogle store startW endW)).cancelDeletes
        ++ (runModel marker sysOff teams (fetchGoogle store startW endW)).deleteOps,
      x ∈ store ∧ startW.toSecs < x.stop.toSecs
        ∧ x.start.toSecs < (DT.shiftMinutes (24 * 60) endW).toSecs := by
  intro x hx
  have hxg : x ∈ fetchGoogle store startW endW := by
    rcases List.mem_append.mp hx with h | h
    · exact cancelDeletes_mem marker sysOff teams _ x h
    · exact deleteOps_mem marker sysOff teams _ x h
  have hxf : x ∈ store.filter (fun e =>
      decide (startW.toSecs < e.stop.toSecs)
        && decide (e.start.toSecs < (DT.shiftMinutes (24 * 60) endW).toSecs)) := hxg
  obtain ⟨h1, h2⟩ := List.mem_filter.mp hxf
  rw [Bool.and_eq_true] at h2
  exact ⟨h1, of_decide_eq_true h2.1, of_decide_eq_true h2.2⟩

/-- Witness for amended C9 at the concrete out-of-window orphan. -/
theorem C9_deletes_within_extended_window_witness :
    (c9Ev ∈ (runModel "Cancelado:" (-180) [] (fetchGoogle [c9Ev] c9Start c9End)).cancelDeletes
        ++ (runModel "Cancelado:" (-180) [] (fetchGoogle [c9Ev] c9Start c9End)).deleteOps)
    ∧ (c9Ev ∈ [c9Ev] ∧ c9Start.toSecs < c9Ev.stop.toSecs
        ∧ c9Ev.start.toSecs < (DT.shiftMinutes (24 * 60) c9End).toSecs) :=
  ⟨by decide,
    C9_deletes_within_extended_window "Cancelado:" (-180) [] [c9Ev] c9Start c9End
      c9Ev (by decide)⟩

end CalendarSync
